import Mathlib

/-!
Shallow embedding of the RISC-V debug-target driver `src/target/riscv/riscv.c`
(legacy 0.11 debug protocol).  The hardware side of every dbus scan is modelled
by an explicit, finite response stream: each element is the decoded incoming
scan word (status, 34-bit data field, echoed address).  Driver functions are
translated as functions of the session state and of this stream; a `none`
result means the provided finite stream ran out before the modelled loop
returned (the loop is still running).
-/

namespace Riscv011

/-- One decoded incoming dbus scan word (riscv.c `dbus_scan`): the 2-bit status
in bits [0,2), the 34-bit data field in bits [2,36), and the echoed address in
bits [36,36+addrbits). -/
structure Resp where
  status : Nat
  data : Nat
  addr : Nat
deriving Repr, DecidableEq

/-- riscv.c `bits_t`: the HALTNOT and INTERRUPT bits of a scan at address 0. -/
structure Bits where
  haltnot : Bool
  interrupt : Bool
deriving Repr, DecidableEq

/-- riscv.c `struct memory_cache_line`. -/
structure Line where
  data : Nat
  valid : Bool
  dirty : Bool
deriving Repr, DecidableEq

/-- riscv.c `DBUS_STATUS_SUCCESS`. -/
def DBUS_STATUS_SUCCESS : Nat := 0

/-- riscv.c `DBUS_STATUS_FAILED`. -/
def DBUS_STATUS_FAILED : Nat := 2

/-- riscv.c `DBUS_STATUS_BUSY`. -/
def DBUS_STATUS_BUSY : Nat := 3

/-- riscv.c `DMCONTROL` dbus address. -/
def DMCONTROL : Nat := 0x10

/-- riscv.c `CACHE_NO_READ`. -/
def CACHE_NO_READ : Nat := 128

/-- riscv.c `DRAM_CACHE_SIZE`. -/
def DRAM_CACHE_SIZE : Nat := 16

/-- riscv.c `MAX_HWBPS`. -/
def MAX_HWBPS : Nat := 16

/-- riscv.c `DEBUG_RAM_START`. -/
def DEBUG_RAM_START : Nat := 0x400

/-- riscv.c `DEBUG_ROM_RESUME`. -/
def DEBUG_ROM_RESUME : Nat := 0x804

/-- Bit 32 of a 34-bit data field: `DMCONTROL_HALTNOT`. -/
def haltnotBit (d : Nat) : Bool := d.testBit 32

/-- Bit 33 of a 34-bit data field: `DMCONTROL_INTERRUPT`. -/
def interruptBit (d : Nat) : Bool := d.testBit 33

/-- riscv.c `dbus_read` (lines 390-403): scan DBUS_READ repeatedly; the inner
do-while retries while the status is BUSY, the outer do-while retries until
the echoed address equals the requested one.  The two nested loops retry one
scan per iteration, so they are modelled as a single recursion over the
response stream that continues while the status is BUSY or the echoed address
differs.  Returns the data field of the accepting scan and the unconsumed
remainder of the stream; `none` when the stream ran out with the loop still
going. -/
def dbus_read (address : Nat) : List Resp → Option (Nat × List Resp)
  | [] => none
  | r :: rest =>
    if r.status = DBUS_STATUS_BUSY then dbus_read address rest
    else if r.addr ≠ address then dbus_read address rest
    else some (r.data, rest)

/-- riscv.c `dbus_write` (lines 405-415): retry the write scan while the
status is BUSY; a FAILED status is logged but not retried. -/
def dbus_write : List Resp → Option (List Resp)
  | [] => none
  | r :: rest => if r.status = DBUS_STATUS_BUSY then dbus_write rest else some rest

/-- riscv.c `read_bits` (lines 574-591): a DBUS_READ at address 0 that loops
while the status is BUSY, or while the echoed address is > 0x10 and is not
DMCONTROL (stale pipeline state). -/
def read_bits : List Resp → Option (Bits × List Resp)
  | [] => none
  | r :: rest =>
    if r.status = DBUS_STATUS_BUSY then read_bits rest
    else if r.addr > 0x10 ∧ r.addr ≠ DMCONTROL then read_bits rest
    else some (⟨haltnotBit r.data, interruptBit r.data⟩, rest)

/-- One sample of the `wait_for_debugint_clear` loop (lines 593-613): the
`read_bits` result of the iteration, paired with the elapsed wall-clock
seconds `time(NULL) - start` observed by the iteration's timeout check. -/
abbrev WaitSample := Bits × Nat

/-- riscv.c `wait_for_debugint_clear` main loop (lines 603-612): each
iteration takes one sample; it returns OK (`true`) when the interrupt bit is
clear, and FAIL (`false`) when the elapsed time exceeds 2 seconds, in that
order.  `none` when the sample stream ran out with the loop still going. -/
def waitLoop : List WaitSample → Option (Bool × List WaitSample)
  | [] => none
  | (b, t) :: rest =>
    if b.interrupt = false then some (true, rest)
    else if t > 2 then some (false, rest)
    else waitLoop rest

/-- The environment a driver operation runs against: the stream of dbus scan
responses, and the stream of (bits, elapsed-seconds) samples observed by the
`wait_for_debugint_clear` loop (whose inner `read_bits` calls are modelled at
the sample level). -/
structure Env where
  resps : List Resp
  waits : List WaitSample

/-- riscv.c `wait_for_debugint_clear` (lines 593-613): with `ignore_first`
the result of one leading `read_bits` is thrown away, then the loop runs. -/
def wait_for_debugint_clear (ignoreFirst : Bool) (e : Env) : Option (Bool × Env) :=
  let w := if ignoreFirst then e.waits.drop 1 else e.waits
  match waitLoop w with
  | none => none
  | some (ok, rest) => some (ok, { e with waits := rest })

/-- The part of riscv.c `riscv_info_t` that the modelled operations touch.
The Debug-RAM cache is a total function on indices; only indices below
`DRAM_CACHE_SIZE` (16) are the array of the source. -/
structure St where
  cache : Nat → Line
  dbus_busy_delay : Nat
  interrupt_high_delay : Nat
  tselect : Nat
  tselect_dirty : Bool
  xlen : Nat
  dramsize : Nat
  dpc : Nat
  dcsr : Nat
  misa : Nat
  gpr : Nat → Nat

/-- riscv.c `increase_dbus_busy_delay` (lines 287-292). -/
def increase_dbus_busy_delay (s : St) : St :=
  { s with dbus_busy_delay := s.dbus_busy_delay + 1 }

/-- riscv.c `increase_interrupt_high_delay` (lines 294-299). -/
def increase_interrupt_high_delay (s : St) : St :=
  { s with interrupt_high_delay := s.interrupt_high_delay + 1 }

/-- riscv.c `dram_address` (lines 279-285). -/
def dram_address (index : Nat) : Nat :=
  if index < 0x10 then index else 0x40 + index - 0x10

/-- riscv.c `slot_t`. -/
inductive Slot where
  | slot0
  | slot1
  | slotLast
deriving Repr, DecidableEq

/-- GPR number of s0. -/
def S0 : Nat := 8

/-- GPR number of s1. -/
def S1 : Nat := 9

/-- GPR number of t0. -/
def T0 : Nat := 5

/-- GPR number of x0. -/
def ZERO : Nat := 0

/-- CSR number of tselect.  Modelled from the spec: the CSR numbers come from
the encoder library headers, which are outside src/; the value is the
standard RISC-V one and is never inspected by the claims. -/
def CSR_TSELECT : Nat := 0x7a0

/-- CSR number of tdata1 (modelled from the spec, see CSR_TSELECT). -/
def CSR_TDATA1 : Nat := 0x7a1

/-- CSR number of tdata2 (modelled from the spec, see CSR_TSELECT). -/
def CSR_TDATA2 : Nat := 0x7a2

/-- Modelled from the spec: the instruction-encoder library is out of scope
(spec sections 1 and 6) and its headers are not under src/; each encoder is
modelled as a function producing a 32-bit opcode determined by its arguments.
The exact bit layout of the opcodes never matters to the claims: opcode words
only travel outward into write scans. `jal rd, imm`. -/
def jal (rd imm : Nat) : Nat := 0x6f + rd * 2 ^ 7 + imm % 2 ^ 20 * 2 ^ 12

/-- Modelled from the spec (see `jal`): `lw rd, imm(base)`. -/
def lw (rd base imm : Nat) : Nat :=
  0x2003 + rd * 2 ^ 7 + base * 2 ^ 15 + imm % 2 ^ 12 * 2 ^ 20

/-- Modelled from the spec (see `jal`): `ld rd, imm(base)`. -/
def ld (rd base imm : Nat) : Nat :=
  0x3003 + rd * 2 ^ 7 + base * 2 ^ 15 + imm % 2 ^ 12 * 2 ^ 20

/-- Modelled from the spec (see `jal`): `lb rd, imm(base)`. -/
def lb (rd base imm : Nat) : Nat :=
  0x3 + rd * 2 ^ 7 + base * 2 ^ 15 + imm % 2 ^ 12 * 2 ^ 20

/-- Modelled from the spec (see `jal`): `lh rd, imm(base)`. -/
def lh (rd base imm : Nat) : Nat :=
  0x1003 + rd * 2 ^ 7 + base * 2 ^ 15 + imm % 2 ^ 12 * 2 ^ 20

/-- Modelled from the spec (see `jal`): `sw src, imm(base)`. -/
def sw (src base imm : Nat) : Nat :=
  0x2023 + src * 2 ^ 20 + base * 2 ^ 15 + imm % 2 ^ 12 * 2 ^ 7

/-- Modelled from the spec (see `jal`): `sd src, imm(base)`. -/
def sd (src base imm : Nat) : Nat :=
  0x3023 + src * 2 ^ 20 + base * 2 ^ 15 + imm % 2 ^ 12 * 2 ^ 7

/-- Modelled from the spec (see `jal`): `sb src, imm(base)`. -/
def sb (src base imm : Nat) : Nat :=
  0x23 + src * 2 ^ 20 + base * 2 ^ 15 + imm % 2 ^ 12 * 2 ^ 7

/-- Modelled from the spec (see `jal`): `sh src, imm(base)`. -/
def sh (src base imm : Nat) : Nat :=
  0x1023 + src * 2 ^ 20 + base * 2 ^ 15 + imm % 2 ^ 12 * 2 ^ 7

/-- Modelled from the spec (see `jal`): `addi rd, rs, imm`. -/
def addi (rd rs imm : Nat) : Nat :=
  0x13 + rd * 2 ^ 7 + rs * 2 ^ 15 + imm % 2 ^ 12 * 2 ^ 20

/-- Modelled from the spec (see `jal`): `csrr rd, csr` (csrrs rd, csr, x0). -/
def csrr (rd csr : Nat) : Nat := 0x2073 + rd * 2 ^ 7 + csr % 2 ^ 12 * 2 ^ 20

/-- Modelled from the spec (see `jal`): `csrw csr, src` (csrrw x0, csr, src). -/
def csrw (src csr : Nat) : Nat := 0x1073 + src * 2 ^ 15 + csr % 2 ^ 12 * 2 ^ 20

/-- riscv.c `load` (lines 217-228): xlen dispatch between lw and ld; other
xlen values hit assert(0), modelled as opcode 0. -/
def load (s : St) (rd base imm : Nat) : Nat :=
  match s.xlen with
  | 32 => lw rd base imm
  | 64 => ld rd base imm
  | _ => 0

/-- riscv.c `store` (lines 230-241): xlen dispatch between sw and sd; other
xlen values hit assert(0), modelled as opcode 0. -/
def store (s : St) (src base imm : Nat) : Nat :=
  match s.xlen with
  | 32 => sw src base imm
  | 64 => sd src base imm
  | _ => 0

/-- riscv.c `slot_offset` (lines 243-263); xlen values other than 32 and 64
hit assert(0), modelled as 0. -/
def slot_offset (s : St) (sl : Slot) : Nat :=
  match s.xlen, sl with
  | 32, Slot.slot0 => 4
  | 32, Slot.slot1 => 5
  | 32, Slot.slotLast => s.dramsize - 1
  | 64, Slot.slot0 => 4
  | 64, Slot.slot1 => 6
  | 64, Slot.slotLast => s.dramsize - 2
  | _, _ => 0

/-- riscv.c `cache_set32` (lines 628-641): mark line `index` valid, dirty,
with the given 32-bit data.  (The "already present" fast path of the source
is disabled by `false &&` and is omitted.) -/
def cache_set32 (index data : Nat) (s : St) : St :=
  { s with cache := fun j => if j = index then ⟨data % 2 ^ 32, true, true⟩ else s.cache j }

/-- riscv.c `cache_set` (lines 643-651): write one or two 32-bit words of a
64-bit value according to xlen. -/
def cache_set (sl : Slot) (data : Nat) (s : St) : St :=
  let offset := slot_offset s sl
  let s₁ := cache_set32 offset data s
  if s.xlen > 32 then cache_set32 (offset + 1) (data / 2 ^ 32) s₁ else s₁

/-- riscv.c `cache_set_jump` (lines 653-657). -/
def cache_set_jump (index : Nat) (s : St) : St :=
  cache_set32 index (jal 0 (DEBUG_ROM_RESUME - (DEBUG_RAM_START + 4 * index))) s

/-- riscv.c `cache_set_load` (lines 659-664). -/
def cache_set_load (index reg : Nat) (sl : Slot) (s : St) : St :=
  cache_set32 index (load s reg ZERO (DEBUG_RAM_START + 4 * slot_offset s sl)) s

/-- riscv.c `cache_set_store` (lines 666-671). -/
def cache_set_store (index reg : Nat) (sl : Slot) (s : St) : St :=
  cache_set32 index (store s reg ZERO (DEBUG_RAM_START + 4 * slot_offset s sl)) s

/-- riscv.c `cache_invalidate` (lines 682-689). -/
def cache_invalidate (s : St) : St :=
  { s with cache := fun i =>
      if i < DRAM_CACHE_SIZE then { s.cache i with valid := false, dirty := false }
      else s.cache i }

/-- riscv.c `cache_clean` (lines 693-702): clear every dirty bit; lines with
index ≥ 4 additionally lose their valid bit. -/
def cache_clean (s : St) : St :=
  { s with cache := fun i =>
      if i < DRAM_CACHE_SIZE then
        { s.cache i with valid := if 4 ≤ i then false else (s.cache i).valid, dirty := false }
      else s.cache i }

/-- riscv.c `cache_write` lines 734-740: index of the last dirty line, or
`DRAM_CACHE_SIZE` when nothing is dirty. -/
def cw_last (s : St) : Nat :=
  (List.range DRAM_CACHE_SIZE).foldl
    (fun last i => if (s.cache i).dirty then i else last) DRAM_CACHE_SIZE

/-- Number of dirty lines, i.e. how many write scans the `cache_write` batch
enqueues (lines 747-754). -/
def cw_dirty_count (s : St) : Nat :=
  ((List.range DRAM_CACHE_SIZE).filter (fun i => (s.cache i).dirty)).length

/-- Number of scans the `cache_write` batch contains: one write per dirty line
(none when nothing is dirty, lines 742-754), plus the two reads of `address`
when `run` or `address < CACHE_NO_READ` (lines 756-764). -/
def cw_nscans (s : St) (address : Nat) (run : Bool) : Nat :=
  (if cw_last s = DRAM_CACHE_SIZE then 0 else cw_dirty_count s) +
    (if run = true ∨ address < CACHE_NO_READ then 2 else 0)

/-- The single `dbus_write(DMCONTROL, HALTNOT|INTERRUPT)` of `cache_write`
when nothing is dirty (lines 742-744), as its effect on the response
stream. -/
def cw_dbuswrite (s : St) (e : Env) : Option Env :=
  if cw_last s = DRAM_CACHE_SIZE then
    match dbus_write e.resps with
    | none => none
    | some rest => some { e with resps := rest }
  else some e

/-- The responses harvested by the `cache_write` batch (lines 772-789): the
next `cw_nscans` responses after the optional leading `dbus_write`. -/
def cw_harvest (address : Nat) (run : Bool) (s : St) (e : Env) : List Resp :=
  match cw_dbuswrite s e with
  | none => []
  | some e₁ => e₁.resps.take (cw_nscans s address run)

/-- A harvested status neither SUCCESS nor BUSY: `cache_write` returns
ERROR_FAIL at once (lines 779-781 and 785-787). -/
def badStatus (r : Resp) : Bool :=
  !(r.status == DBUS_STATUS_SUCCESS) && !(r.status == DBUS_STATUS_BUSY)

/-- `cache_write` lines 833-835: store the last read scan's low 32 data bits
into the cache at its echoed address and mark that line valid (the dirty bit
is not written). -/
def cw_revalidate (ra d : Nat) (s : St) : St :=
  { s with cache := fun j =>
      if j = ra then { data := d % 2 ^ 32, valid := true, dirty := (s.cache ra).dirty }
      else s.cache j }

/-- The 16 per-word `dram_write32` calls of the slow path of `cache_write`
(lines 795-802), as their effect on the response stream (each is one
`dbus_write` retry loop; the written values never influence the model). -/
def dram_writes (e : Env) : Nat → Option Env
  | 0 => some e
  | n + 1 =>
    match dbus_write e.resps with
    | none => none
    | some rest => dram_writes { e with resps := rest } n

/-- riscv.c `cache_write` (lines 728-844).  Returns `some (ok, s', e')` where
`ok` is ERROR_OK/ERROR_FAIL, or `none` when a response or wait stream ran
out.  Batch enqueueing is represented by its scan count; harvested responses
are taken positionally from the stream, as the scan layer returns them. -/
def cache_write (address : Nat) (run : Bool) (s : St) (e : Env) : Option (Bool × St × Env) :=
  match cw_dbuswrite s e with
  | none => none
  | some e₁ =>
    let n := cw_nscans s address run
    if e₁.resps.length < n then none
    else
      let harvest := e₁.resps.take n
      let e₂ : Env := { e₁ with resps := e₁.resps.drop n }
      if harvest.any badStatus then
        some (false, s, e₂)
      else if harvest.any (fun r => r.status == DBUS_STATUS_BUSY) then
        let s₁ := cache_clean (increase_dbus_busy_delay s)
        match dram_writes e₂ DRAM_CACHE_SIZE with
        | none => none
        | some e₃ =>
          match wait_for_debugint_clear true e₃ with
          | none => none
          | some (ok, e₄) => some (ok, s₁, e₄)
      else
        let s₁ := cache_clean s
        if run = true ∨ address < CACHE_NO_READ then
          let lastScan := harvest.getLastD ⟨0, 0, 0⟩
          if interruptBit lastScan.data then
            let s₂ := increase_interrupt_high_delay s₁
            match wait_for_debugint_clear false e₂ with
            | none => none
            | some (ok, e₃) => some (ok, s₂, e₃)
          else
            some (true, cw_revalidate lastScan.addr lastScan.data s₁, e₂)
        else
          some (true, s₁, e₂)

/-- riscv.c `cache_get32` (lines 846-854): serve from the cache when valid,
otherwise `dram_read32` (a `dbus_read` of the line's dbus address, truncated
to 32 bits) and fill the line. -/
def cache_get32 (index : Nat) (s : St) (e : Env) : Option (Nat × St × Env) :=
  if (s.cache index).valid then some ((s.cache index).data, s, e)
  else
    match dbus_read (dram_address index) e.resps with
    | none => none
    | some (v, rest) =>
      let d := v % 2 ^ 32
      some (d,
        { s with cache := fun j =>
            if j = index then { data := d, valid := true, dirty := (s.cache index).dirty }
            else s.cache j },
        { e with resps := rest })

/-- riscv.c `cache_get` (lines 856-865): one or two 32-bit words according to
xlen. -/
def cache_get (sl : Slot) (s : St) (e : Env) : Option (Nat × St × Env) :=
  let offset := slot_offset s sl
  match cache_get32 offset s e with
  | none => none
  | some (lo, s₁, e₁) =>
    if s.xlen > 32 then
      match cache_get32 (offset + 1) s₁ e₁ with
      | none => none
      | some (hi, s₂, e₂) => some (lo + hi * 2 ^ 32, s₂, e₂)
    else some (lo, s₁, e₁)

/-- riscv.c `read_csr` (lines 895-906): stage `csrr S0, csr; store S0 to
SLOT0; jump`, run via `cache_write(4, true)`, then read SLOT0 back. -/
def read_csr (csr : Nat) (s : St) (e : Env) : Option (Bool × Nat × St × Env) :=
  let s₁ := cache_set32 0 (csrr S0 csr) s
  let s₂ := cache_set_store 1 S0 Slot.slot0 s₁
  let s₃ := cache_set_jump 2 s₂
  match cache_write 4 true s₃ e with
  | none => none
  | some (false, s₄, e₁) => some (false, 0, s₄, e₁)
  | some (true, s₄, e₁) =>
    match cache_get Slot.slot0 s₄ e₁ with
    | none => none
    | some (v, s₅, e₂) => some (true, v, s₅, e₂)

/-- riscv.c `write_csr` (lines 908-919): stage `load S0 from SLOT0; csrw S0,
csr; jump`, place the value in SLOT0, run via `cache_write(4, true)`. -/
def write_csr (csr value : Nat) (s : St) (e : Env) : Option (Bool × St × Env) :=
  let s₁ := cache_set_load 0 S0 Slot.slot0 s
  let s₂ := cache_set32 1 (csrw S0 csr) s₁
  let s₃ := cache_set_jump 2 s₂
  let s₄ := cache_set Slot.slot0 value s₃
  match cache_write 4 true s₄ e with
  | none => none
  | some (ok, s₅, e₁) => some (ok, s₅, e₁)

/-- riscv.c `write_gpr` (lines 921-930). -/
def write_gpr (gpr value : Nat) (s : St) (e : Env) : Option (Bool × St × Env) :=
  let s₁ := cache_set_load 0 gpr Slot.slot0 s
  let s₂ := cache_set_jump 1 s₁
  let s₃ := cache_set Slot.slot0 value s₂
  match cache_write 4 true s₃ e with
  | none => none
  | some (ok, s₄, e₁) => some (ok, s₄, e₁)

/-- riscv.c `maybe_read_tselect` (lines 932-944): when the shadow is dirty,
read CSR_TSELECT into the shadow and clear the dirty flag; on a read failure
the failure is returned and the flag is left alone. -/
def maybe_read_tselect (s : St) (e : Env) : Option (Bool × St × Env) :=
  if s.tselect_dirty = true then
    match read_csr CSR_TSELECT s e with
    | none => none
    | some (false, _, s₁, e₁) => some (false, s₁, e₁)
    | some (true, v, s₁, e₁) => some (true, { s₁ with tselect := v, tselect_dirty := false }, e₁)
  else some (true, s, e)

/-- riscv.c `maybe_write_tselect` (lines 946-958): when the shadow is not
dirty, write the shadow to CSR_TSELECT and set the dirty flag; on a write
failure the failure is returned and the flag is left alone. -/
def maybe_write_tselect (s : St) (e : Env) : Option (Bool × St × Env) :=
  if s.tselect_dirty = false then
    match write_csr CSR_TSELECT s.tselect s e with
    | none => none
    | some (false, s₁, e₁) => some (false, s₁, e₁)
    | some (true, s₁, e₁) => some (true, { s₁ with tselect_dirty := true }, e₁)
  else some (true, s, e)

/-! ### Trigger manager (riscv.c `add_trigger` / `remove_trigger`)

The CSR traffic of the trigger manager (whose return values the source
ignores) is modelled by a per-slot hardware oracle: what `tselect` reads back
after being written to the slot index, the initial `tdata1` contents, and what
`tdata1` reads back after the configured value is written. -/

/-- All ones in 64 bits; C `~x` on a uint64_t is `MASK64 ^^^ x`. -/
def MASK64 : Nat := 2 ^ 64 - 1

/-- `mask & ~(mask << 1)`: the lowest set bit of the mask, as used by the
riscv.c `get_field`/`set_field` macros (lines 24-25). -/
def lowestBit (mask : Nat) : Nat := mask &&& (MASK64 ^^^ (mask <<< 1 &&& MASK64))

/-- riscv.c `get_field` macro (line 24). -/
def get_field (reg mask : Nat) : Nat := (reg &&& mask) / lowestBit mask

/-- riscv.c `set_field` macro (line 25). -/
def set_field (reg mask val : Nat) : Nat :=
  (reg &&& (MASK64 ^^^ mask)) ||| (val * lowestBit mask &&& mask)

/-- Modelled from the spec: the `MCONTROL_*` trigger-CSR field constants come
from the encoder library headers, which are outside src/; the values follow
the public RISC-V debug spec and the claims hold for any values.
Type field of tdata1 (top four bits). -/
def MCONTROL_TYPE (xlen : Nat) : Nat := 0xf <<< (xlen - 4)

/-- Modelled from the spec (see `MCONTROL_TYPE`): dmode bit. -/
def MCONTROL_DMODE (xlen : Nat) : Nat := 1 <<< (xlen - 5)

/-- Modelled from the spec (see `MCONTROL_TYPE`): action field. -/
def MCONTROL_ACTION : Nat := 0x3f <<< 12

/-- Modelled from the spec (see `MCONTROL_TYPE`): match field. -/
def MCONTROL_MATCH : Nat := 0xf <<< 7

/-- Modelled from the spec (see `MCONTROL_TYPE`): m-mode bit. -/
def MCONTROL_M : Nat := 1 <<< 6

/-- Modelled from the spec (see `MCONTROL_TYPE`): h-mode bit. -/
def MCONTROL_H : Nat := 1 <<< 5

/-- Modelled from the spec (see `MCONTROL_TYPE`): s-mode bit. -/
def MCONTROL_S : Nat := 1 <<< 4

/-- Modelled from the spec (see `MCONTROL_TYPE`): u-mode bit. -/
def MCONTROL_U : Nat := 1 <<< 3

/-- Modelled from the spec (see `MCONTROL_TYPE`): execute-match bit. -/
def MCONTROL_EXECUTE : Nat := 1 <<< 2

/-- Modelled from the spec (see `MCONTROL_TYPE`): store-match bit. -/
def MCONTROL_STORE : Nat := 1 <<< 1

/-- Modelled from the spec (see `MCONTROL_TYPE`): load-match bit. -/
def MCONTROL_LOAD : Nat := 1

/-- Modelled from the spec (see `MCONTROL_TYPE`): action = enter debug mode. -/
def MCONTROL_ACTION_DEBUG_MODE : Nat := 1

/-- Modelled from the spec (see `MCONTROL_TYPE`): match = equal. -/
def MCONTROL_MATCH_EQUAL : Nat := 0

/-- riscv.c `struct trigger` (lines 130-137); the owner identity is an `Int`
because slot entries use -1 as the free sentinel. -/
structure Trigger where
  address : Nat
  length : Nat
  mask : Nat
  value : Nat
  read : Bool
  write : Bool
  execute : Bool
  unique_id : Int

/-- Per-slot responses of the trigger CSRs: what `tselect` reads back after
slot `i` was selected, the initial `tdata1` of slot `i`, and what `tdata1` of
slot `i` reads back after a value was written to it. -/
structure TrigHw where
  tselect_rb : Nat → Nat
  tdata1 : Nat → Nat
  tdata1_rb : Nat → Nat → Nat

/-- The tdata1 value `add_trigger` configures (riscv.c lines 1322-1340). -/
def trig_conf (s : St) (t : Trigger) (tdata1 : Nat) : Nat :=
  let d := tdata1 ||| MCONTROL_DMODE s.xlen
  let d := set_field d MCONTROL_ACTION MCONTROL_ACTION_DEBUG_MODE
  let d := set_field d MCONTROL_MATCH MCONTROL_MATCH_EQUAL
  let d := d ||| MCONTROL_M
  -- misa bits: H = bit 7, S = bit 18, U = bit 20 (1 << (letter - 'A'))
  let d := if s.misa.testBit 7 then d ||| MCONTROL_H else d
  let d := if s.misa.testBit 18 then d ||| MCONTROL_S else d
  let d := if s.misa.testBit 20 then d ||| MCONTROL_U else d
  let d := if t.execute then d ||| MCONTROL_EXECUTE else d
  let d := if t.read then d ||| MCONTROL_LOAD else d
  let d := if t.write then d ||| MCONTROL_STORE else d
  d

/-- The slot-scan loop of riscv.c `add_trigger` (lines 1292-1362), iterating
the physical slot index upward.  `fuel` is `MAX_HWBPS - i` and only bounds
the structural recursion.  Returns the claimed slot (or `none` for
ERROR_TARGET_RESOURCE_NOT_AVAILABLE, which the source also returns when
`tselect` does not read back as written) together with the updated
`trigger_unique_id` array. -/
def add_trigger_loop (s : St) (hw : TrigHw) (t : Trigger) :
    Nat → Nat → List Int → Option Nat × List Int
  | 0, _, tuid => (none, tuid)
  | fuel + 1, i, tuid =>
    if MAX_HWBPS ≤ i then (none, tuid)
    else if tuid.getD i 0 ≠ -1 then add_trigger_loop s hw t fuel (i + 1) tuid
    else if hw.tselect_rb i ≠ i then (none, tuid)
    else
      let td := hw.tdata1 i
      if get_field td (MCONTROL_TYPE s.xlen) ≠ 2 then add_trigger_loop s hw t fuel (i + 1) tuid
      else if td &&& (MCONTROL_EXECUTE ||| MCONTROL_STORE ||| MCONTROL_LOAD) ≠ 0 then
        add_trigger_loop s hw t fuel (i + 1) tuid
      else
        let conf := trig_conf s t td
        if conf ≠ hw.tdata1_rb i conf then add_trigger_loop s hw t fuel (i + 1) tuid
        else (some i, tuid.set i t.unique_id)

/-- riscv.c `add_trigger` (lines 1285-1369), at the level of the
`trigger_unique_id` bookkeeping (its CSR writes go to the oracle; the source
ignores their return codes). -/
def add_trigger (s : St) (hw : TrigHw) (t : Trigger) (tuid : List Int) :
    Option Nat × List Int :=
  add_trigger_loop s hw t MAX_HWBPS 0 tuid

/-- The search loop of riscv.c `remove_trigger` (lines 1377-1382): lowest
slot index owned by the given unique id. -/
def remove_trigger_find (uid : Int) (tuid : List Int) : Nat → Nat → Option Nat
  | 0, _ => none
  | fuel + 1, i =>
    if MAX_HWBPS ≤ i then none
    else if tuid.getD i 0 = uid then some i
    else remove_trigger_find uid tuid fuel (i + 1)

/-- riscv.c `remove_trigger` (lines 1371-1394): free exactly the slot owned
by the unique id; ERROR_FAIL (`false`) when no slot is owned. -/
def remove_trigger (uid : Int) (tuid : List Int) : Bool × List Int :=
  match remove_trigger_find uid tuid MAX_HWBPS 0 with
  | none => (false, tuid)
  | some i => (true, tuid.set i (-1))

/-! ### Xlen discovery (riscv.c `riscv_examine`) -/

/-- The xlen decision of riscv.c `riscv_examine` (lines 1658-1672) on the two
words read back from Debug RAM after the probe snippet ran: `some` the
detected xlen, `none` for the ERROR_FAIL branch. -/
def xlen_from_words (word0 word1 : Nat) : Option Nat :=
  if word0 = 1 ∧ word1 = 0 then some 32
  else if word0 = 0xffffffff ∧ word1 = 3 then some 64
  else if word0 = 0xffffffff ∧ word1 = 0xffffffff then some 128
  else none

/-! ### Memory read (riscv.c `riscv_read_memory`) -/

/-- Byte `b` of a data word, as the source stores it into the caller's
buffer (`data >> 8*b` truncated to a byte). -/
def byteOf (data b : Nat) : Nat := data / 2 ^ (8 * b) % 2 ^ 8

/-- The `size` buffer bytes written for one harvested scan (riscv.c lines
2060-2077): bytes `offset .. offset+size-1` become the low bytes of the
scan's data field. -/
def rmem_store (size offset data : Nat) (buf : Nat → Nat) : Nat → Nat :=
  fun p => if offset ≤ p ∧ p < offset + size then byteOf data (p - offset) else buf p

/-- Result of harvesting one batch of `riscv_read_memory`: `abort` is the
`goto error` on a FAILED (or invalid) status, keeping the buffer bytes
already stored; `done` carries the BUSY and interrupt-high counts. -/
inductive RmOut where
  | abort (buf : Nat → Nat) (rv : Nat)
  | done (db eb : Nat) (buf : Nat → Nat) (rv : Nat)

/-- The harvest loop of one `riscv_read_memory` batch (riscv.c lines
2037-2079).  `g = i + j` is the global scan index; scan `count+2` feeds
`result_value` (a uint32_t), every scan with `g > 1` other than it feeds the
buffer at element `g - 2`, and data is stored even for a BUSY scan, exactly
as in the source. -/
def rmem_harvest (size count : Nat) :
    Nat → List Resp → (Nat → Nat) → Nat → Nat → Nat → RmOut
  | _, [], buf, rv, db, eb => .done db eb buf rv
  | g, r :: rest, buf, rv, db, eb =>
    if r.status = DBUS_STATUS_SUCCESS ∨ r.status = DBUS_STATUS_BUSY then
      let db := if r.status = DBUS_STATUS_BUSY then db + 1 else db
      let eb := if interruptBit r.data then eb + 1 else eb
      if g = count + 2 then rmem_harvest size count (g + 1) rest buf (r.data % 2 ^ 32) db eb
      else if g > 1 then
        rmem_harvest size count (g + 1) rest (rmem_store size (size * (g - 2)) r.data buf) rv db eb
      else rmem_harvest size count (g + 1) rest buf rv db eb
    else .abort buf rv

/-- riscv.c `max_batch_size`. -/
def max_batch_size : Nat := 256

/-- Result of one iteration of the `riscv_read_memory` outer loop. -/
inductive RmStep where
  | final (ok : Bool) (buf : Nat → Nat) (rv : Nat) (s : St) (e : Env)
  | next (i : Nat) (buf : Nat → Nat) (rv : Nat) (s : St) (e : Env)
  | out

/-- One iteration of the `riscv_read_memory` outer loop (riscv.c lines
2011-2095): take a batch of `min (count+3-i) 256` responses, harvest it; on a
FAILED status `goto error` (`final false`); when BUSY or interrupt-high was
observed, bump the matching delay exactly once, run `wait_for_debugint_clear`
(whose result the source ignores) and retry without advancing `i`; otherwise
advance `i` by the batch size. -/
def rmem_step (size count i : Nat) (buf : Nat → Nat) (rv : Nat) (s : St) (e : Env) : RmStep :=
  let bs := min (count + 3 - i) max_batch_size
  if e.resps.length < bs then .out
  else
    let batch := e.resps.take bs
    let e₁ : Env := { e with resps := e.resps.drop bs }
    match rmem_harvest size count i batch buf rv 0 0 with
    | .abort buf' rv' => .final false buf' rv' s e₁
    | .done db eb buf' rv' =>
      let s₁ := if db ≠ 0 then increase_dbus_busy_delay s else s
      let s₂ := if eb ≠ 0 then increase_interrupt_high_delay s₁ else s₁
      if db ≠ 0 ∨ eb ≠ 0 then
        match wait_for_debugint_clear false e₁ with
        | none => .out
        | some (_, e₂) => .next i buf' rv' s₂ e₂
      else .next (i + bs) buf' rv' s₂ e₁

/-- The `riscv_read_memory` outer loop (riscv.c lines 2011-2115): iterate
`rmem_step` while `i < count + 3`; afterwards a non-zero `result_value` is the
hart's exception word and makes the function fail, and both exits run
`cache_clean`.  `fuel` only bounds the recursion (the source loop can retry a
batch without advancing). -/
def rmem_loop (size count : Nat) :
    Nat → Nat → (Nat → Nat) → Nat → St → Env → Option (Bool × (Nat → Nat) × Nat × St × Env)
  | 0, _, _, _, _, _ => none
  | fuel + 1, i, buf, rv, s, e =>
    if count + 3 ≤ i then some ((rv == 0), buf, rv, cache_clean s, e)
    else
      match rmem_step size count i buf rv s e with
      | .out => none
      | .final ok buf' rv' s' e' => some (ok, buf', rv', cache_clean s', e')
      | .next i' buf' rv' s' e' => rmem_loop size count fuel i' buf' rv' s' e'

/-- riscv.c `riscv_read_memory` (lines 1979-2116): stage the 4-word read
preamble sized to `size` (unsupported sizes fail at once), flush it with
`cache_write(CACHE_NO_READ, false)` whose return code the source ignores,
then run the batch loop starting at `i = 0` with `result_value = 0x777`. -/
def riscv_read_memory (address size count : Nat) (buf : Nat → Nat) (s : St) (e : Env) :
    Option (Bool × (Nat → Nat) × Nat × St × Env) :=
  if ¬(size = 1 ∨ size = 2 ∨ size = 4) then some (false, buf, 0x777, s, e)
  else
    let s₀ := cache_set32 0 (lw S0 ZERO (DEBUG_RAM_START + 16)) s
    let s₁ :=
      if size = 1 then cache_set32 2 (sw S1 ZERO (DEBUG_RAM_START + 16)) (cache_set32 1 (lb S1 S0 0) s₀)
      else if size = 2 then cache_set32 2 (sw S1 ZERO (DEBUG_RAM_START + 16)) (cache_set32 1 (lh S1 S0 0) s₀)
      else cache_set32 2 (sw S1 ZERO (DEBUG_RAM_START + 16)) (cache_set32 1 (lw S1 S0 0) s₀)
    let s₂ := cache_set_jump 3 s₁
    match cache_write CACHE_NO_READ false s₂ e with
    | none => none
    | some (_, s₃, e₁) => rmem_loop size count (count + 4) 0 buf 0x777 s₃ e₁

/-! ### Halt-routine bulk register drain (riscv.c `handle_halt_routine`) -/

/-- Number of scans `handle_halt_routine` enqueues (riscv.c lines 1697-1729):
a jump write; for each of the 29 GPRs other than S0/S1 a store write plus a
SLOT0 read (one scan for xlen 32, two for 64); a store and a jump write for
S0; a load write plus read for S1; a `csrr` write plus read for each of
DSCRATCH, DPC, DCSR; and a final read. -/
def hhr_scan_count (xlen : Nat) : Nat :=
  let readN := if xlen = 32 then 1 else 2
  1 + 29 * (1 + readN) + 2 + (1 + readN) + 3 * (1 + readN) + 1

/-- Where harvested result number `result` lands (the `switch (result)` of
riscv.c lines 1770-1808). -/
inductive HTgt where
  | gpr (n : Nat)
  | hdpc
  | hdcsr
deriving Repr, DecidableEq

/-- riscv.c lines 1770-1808: results 0-6 are x1-x7, 7-28 are x10-x31, 29 is
S1, 30 is S0, 31 is DPC, 32 is DCSR; anything further hits assert(0),
modelled as `none`. -/
def hhr_target (result : Nat) : Option HTgt :=
  if result ≤ 6 then some (.gpr (result + 1))
  else if result ≤ 28 then some (.gpr (result + 3))
  else if result = 29 then some (.gpr S1)
  else if result = 30 then some (.gpr S0)
  else if result = 31 then some .hdpc
  else if result = 32 then some .hdcsr
  else none

/-- The register file as mutated by the halt-routine harvest. -/
structure HhrSt where
  gpr : Nat → Nat
  dpc : Nat
  dcsr : Nat

/-- Apply an update function to the register a harvest target names. -/
def hhr_set (h : HhrSt) (t : HTgt) (f : Nat → Nat) : HhrSt :=
  match t with
  | .gpr n => { h with gpr := fun j => if j = n then f (h.gpr j) else h.gpr j }
  | .hdpc => { h with dpc := f h.dpc }
  | .hdcsr => { h with dcsr := f h.dcsr }

/-- Outcome of the `handle_halt_routine` harvest loop: `fail` for a FAILED or
invalid status (the source's `goto error` / direct return), `done` with the
flags "a BUSY was counted" and "an interrupt bit was seen". -/
inductive HhrOut where
  | fail (h : HhrSt)
  | done (h : HhrSt) (busy : Bool) (intr : Bool)

/-- The harvest loop of riscv.c `handle_halt_routine` (lines 1743-1821),
starting from scan 1 (the first harvested scan is pipeline residue and is
skipped by the caller).  A BUSY status still runs the body of its iteration
(as in the source, whose loop condition only stops the following iteration);
an interrupt bit breaks out at once. -/
def hhr_harvest (xlen : Nat) : List Resp → HhrSt → Nat → HhrOut
  | [], h, _ => .done h false false
  | r :: rest, h, result =>
    if r.status = DBUS_STATUS_SUCCESS ∨ r.status = DBUS_STATUS_BUSY then
      let isBusy := r.status == DBUS_STATUS_BUSY
      if interruptBit r.data then .done h isBusy true
      else if r.addr = 4 ∨ r.addr = 5 then
        match hhr_target result with
        | none => .fail h
        | some t =>
          if xlen = 32 then
            let h' := hhr_set h t (fun _ => r.data % 2 ^ 32)
            if isBusy then .done h' true false else hhr_harvest xlen rest h' (result + 1)
          else if xlen = 64 then
            if r.addr = 4 then
              let h' := hhr_set h t (fun _ => r.data % 2 ^ 32)
              if isBusy then .done h' true false else hhr_harvest xlen rest h' result
            else
              let h' := hhr_set h t (fun old => old ||| r.data % 2 ^ 32 * 2 ^ 32)
              if isBusy then .done h' true false else hhr_harvest xlen rest h' (result + 1)
          else if isBusy then .done h true false else hhr_harvest xlen rest h result
      else if isBusy then .done h true false else hhr_harvest xlen rest h result
    else .fail h

/-- Initial register file of the harvest: the source zeroes `gpr_cache[0]`
before the loop (line 1740). -/
def hhr_init (s : St) : HhrSt :=
  { gpr := fun j => if j = 0 then 0 else s.gpr j, dpc := s.dpc, dcsr := s.dcsr }

/-- The scans `handle_halt_routine` harvests: the batch minus its first
(pipeline-residue) scan. -/
def hhr_batch (s : St) (e : Env) : List Resp :=
  (e.resps.take (hhr_scan_count s.xlen)).drop 1

/-- riscv.c `riscv_error_t`. -/
inductive RE where
  | ok
  | again
  | fail
deriving Repr, DecidableEq

/-- riscv.c `handle_halt_routine` (lines 1688-1841): run the batch, harvest
it; on success invalidate the cache, then a counted BUSY bumps
`dbus_busy_delay` exactly once and yields RE_AGAIN, else a seen interrupt bit
bumps `interrupt_high_delay` exactly once and yields RE_AGAIN, else RE_OK.  A
FAILED status yields RE_FAIL without touching cache or counters. -/
def handle_halt_routine (s : St) (e : Env) : Option (RE × St × Env) :=
  let n := hhr_scan_count s.xlen
  if e.resps.length < n then none
  else
    let e₁ : Env := { e with resps := e.resps.drop n }
    match hhr_harvest s.xlen (hhr_batch s e) (hhr_init s) 0 with
    | .fail h => some (.fail, { s with gpr := h.gpr, dpc := h.dpc, dcsr := h.dcsr }, e₁)
    | .done h busy intr =>
      let s₁ := cache_invalidate { s with gpr := h.gpr, dpc := h.dpc, dcsr := h.dcsr }
      if busy then some (.again, increase_dbus_busy_delay s₁, e₁)
      else if intr then some (.again, increase_interrupt_high_delay s₁, e₁)
      else some (.ok, s₁, e₁)

/-! ### PC register access (riscv.c `register_get` / `register_write`) -/

/-- Read `num` bits of a buffer starting at bit `first` (the framework's
`buf_get_u64`, treating the register value buffer as a little-endian
bitstream). -/
def buf_get (b first num : Nat) : Nat := b / 2 ^ first % 2 ^ num

/-- Write `num` bits of `v` into a buffer at bit `first` (the framework's
`buf_set_u32`/`buf_set_u64`). -/
def buf_set (b first num v : Nat) : Nat :=
  b % 2 ^ first + v % 2 ^ num * 2 ^ first + b / 2 ^ (first + num) * 2 ^ (first + num)

/-- The `REG_PC` branch of riscv.c `register_get` (lines 1085-1099): after
the unchecked `maybe_write_tselect`, the register value buffer receives the
shadow `dpc` through `buf_set_u32(value, 0, 32, dpc)` — width 32 — and the
call returns ERROR_OK. -/
def register_get_pc (s : St) (e : Env) (bufOld : Nat) : Option (Nat × St × Env) :=
  match maybe_write_tselect s e with
  | none => none
  | some (_, s₁, e₁) => some (buf_set bufOld 0 32 s₁.dpc, s₁, e₁)

/-- The `REG_PC` branch of riscv.c `register_write` (lines 1141-1161): after
the unchecked `maybe_write_tselect`, the full value is stored into the `dpc`
shadow and the call returns ERROR_OK. -/
def register_write_pc (v : Nat) (s : St) (e : Env) : Option (Bool × St × Env) :=
  match maybe_write_tselect s e with
  | none => none
  | some (_, s₁, e₁) => some (true, { s₁ with dpc := v }, e₁)

/-! ### Helper lemmas -/

/-- `dbus_read` on a stream of BUSY responses never returns. -/
theorem dbus_read_all_busy (address n : Nat) :
    dbus_read address (List.replicate n ⟨DBUS_STATUS_BUSY, 0, 0⟩) = none := by
  induction n with
  | zero => rfl
  | succ n ih => simpa [List.replicate_succ, dbus_read] using ih

/-- `dbus_write` on a stream of BUSY responses never returns. -/
theorem dbus_write_all_busy (n : Nat) :
    dbus_write (List.replicate n ⟨DBUS_STATUS_BUSY, 0, 0⟩) = none := by
  induction n with
  | zero => rfl
  | succ n ih => simpa [List.replicate_succ, dbus_write] using ih

/-- `read_bits` on a stream of BUSY responses never returns. -/
theorem read_bits_all_busy (n : Nat) :
    read_bits (List.replicate n ⟨DBUS_STATUS_BUSY, 0, 0⟩) = none := by
  induction n with
  | zero => rfl
  | succ n ih => simpa [List.replicate_succ, read_bits] using ih

/-- The `wait_for_debugint_clear` loop returns as soon as its sample list
contains a clear interrupt or an over-deadline time. -/
theorem waitLoop_exits (w : List WaitSample)
    (h : ∃ x ∈ w, x.1.interrupt = false ∨ x.2 > 2) : (waitLoop w).isSome = true := by
  induction w with
  | nil => simp at h
  | cons x rest ih =>
    obtain ⟨b, t⟩ := x
    by_cases hb : b.interrupt = false
    · simp [waitLoop, hb]
    · by_cases ht : t > 2
      · simp [waitLoop, hb, ht]
      · rcases h with ⟨y, hy, hcase⟩
        rcases List.mem_cons.mp hy with rfl | hmem
        · simp at hcase
          rcases hcase with h1 | h1
          · exact absurd h1 hb
          · exact absurd h1 ht
        · have := ih ⟨y, hmem, hcase⟩
          simpa [waitLoop, hb, ht] using this

/-- A sample past the 2-second deadline with the interrupt still high makes
the wait loop return failure at once. -/
theorem waitLoop_deadline (w : List WaitSample) (b : Bits) (t : Nat)
    (hb : b.interrupt = true) (ht : t > 2) :
    waitLoop ((b, t) :: w) = some (false, w) := by
  simp [waitLoop, hb, ht]

/-! ### Claims C3, C5, C6 -/

/-- Claim C3, counterexample.  The claim says every wait loop exits on its
success condition or returns a failure within 2 seconds of wall clock; since
a scan takes non-zero time, that requires a bound N on the number of scan
responses the loop can consume before returning.  No such bound exists for
the BUSY retry loop of `dbus_read`: for every N, an all-BUSY response
sequence of length N leaves the loop still running. -/
theorem c3_counterexample :
    ¬ ∃ N : Nat, ∀ rs : List Resp, N ≤ rs.length →
      (dbus_read DMCONTROL rs).isSome = true := by
  rintro ⟨N, h⟩
  have hlen : N ≤ (List.replicate N (⟨DBUS_STATUS_BUSY, 0, 0⟩ : Resp)).length := by simp
  have := h _ hlen
  rw [dbus_read_all_busy] at this
  simp at this

/-- Claim C3 (amended): the BUSY retry loops in `dbus_read`, `dbus_write` and
`read_bits` have no timeout — under an all-BUSY response sequence they never
return, however long — while the debug-interrupt polling loop of
`wait_for_debugint_clear` does return for every sample sequence containing a
clear interrupt or an elapsed time above 2 seconds, and returns failure as
soon as a sample shows the interrupt still high past the 2-second
deadline. -/
theorem c3_wait_loops_amended :
    (∀ address n, dbus_read address (List.replicate n ⟨DBUS_STATUS_BUSY, 0, 0⟩) = none) ∧
    (∀ n, dbus_write (List.replicate n ⟨DBUS_STATUS_BUSY, 0, 0⟩) = none) ∧
    (∀ n, read_bits (List.replicate n ⟨DBUS_STATUS_BUSY, 0, 0⟩) = none) ∧
    (∀ w : List WaitSample, (∃ x ∈ w, x.1.interrupt = false ∨ x.2 > 2) →
      (waitLoop w).isSome = true) ∧
    (∀ (w : List WaitSample) (b : Bits) (t : Nat), b.interrupt = true → t > 2 →
      waitLoop ((b, t) :: w) = some (false, w)) :=
  ⟨dbus_read_all_busy, dbus_write_all_busy, read_bits_all_busy, waitLoop_exits, waitLoop_deadline⟩

/-- Claim C3, witness for the amended theorem: a concrete all-BUSY stream of
length 4 leaves `dbus_read` running, and a concrete sample list with the
interrupt high past the deadline makes the wait loop fail. -/
theorem c3_witness :
    dbus_read DMCONTROL (List.replicate 4 ⟨DBUS_STATUS_BUSY, 0, 0⟩) = none ∧
    (waitLoop [(⟨true, true⟩, 5)]).isSome = true ∧
    waitLoop [(⟨true, true⟩, 5)] = some (false, []) :=
  ⟨c3_wait_loops_amended.1 DMCONTROL 4,
   c3_wait_loops_amended.2.2.2.1 [(⟨true, true⟩, 5)] ⟨(⟨true, true⟩, 5), by decide, by decide⟩,
   c3_wait_loops_amended.2.2.2.2 [] ⟨true, true⟩ 5 (by decide) (by decide)⟩

/-- Claim C5: when `dbus_read` returns a value, the response stream splits
into a skipped prefix — every element of which was BUSY or echoed a different
address — followed by the accepting scan, whose status is not BUSY, whose
echoed address equals the requested one, and whose data field is the returned
value.  So the returned data never comes from a scan with a mismatched
echoed address. -/
theorem c5_dbus_read_from_matching_scan (address : Nat) (rs : List Resp) (v : Nat)
    (rest : List Resp) (h : dbus_read address rs = some (v, rest)) :
    ∃ pre r, rs = pre ++ r :: rest ∧
      (∀ x ∈ pre, x.status = DBUS_STATUS_BUSY ∨ x.addr ≠ address) ∧
      r.status ≠ DBUS_STATUS_BUSY ∧ r.addr = address ∧ v = r.data := by
  induction rs generalizing v rest with
  | nil => exact absurd h (by simp [dbus_read])
  | cons r rs ih =>
    by_cases hb : r.status = DBUS_STATUS_BUSY
    · rw [dbus_read, if_pos hb] at h
      obtain ⟨pre, r', hsplit, hpre, hr⟩ := ih _ _ h
      exact ⟨r :: pre, r', by rw [hsplit]; rfl,
        fun x hx => by
          rcases List.mem_cons.mp hx with rfl | hx
          · exact Or.inl hb
          · exact hpre x hx, hr⟩
    · rw [dbus_read, if_neg hb] at h
      by_cases ha : r.addr ≠ address
      · rw [if_pos ha] at h
        obtain ⟨pre, r', hsplit, hpre, hr⟩ := ih _ _ h
        exact ⟨r :: pre, r', by rw [hsplit]; rfl,
          fun x hx => by
            rcases List.mem_cons.mp hx with rfl | hx
            · exact Or.inr ha
            · exact hpre x hx, hr⟩
      · rw [if_neg ha] at h
        obtain ⟨rfl, rfl⟩ : r.data = v ∧ rs = rest := by
          constructor <;> [exact (Option.some.inj h ▸ rfl : (r.data, rs).1 = v);
            exact (Option.some.inj h ▸ rfl : (r.data, rs).2 = rest)]
        exact ⟨[], r, rfl, by simp, hb, not_not.mp ha, rfl⟩

/-- Claim C5, witness: the pipelined mock of the spec — a stale scan echoing
address 7 followed by the fresh scan echoing the requested address 5 — is
read correctly: the returned data 42 comes from the matching scan. -/
theorem c5_witness :
    dbus_read 5 [⟨0, 99, 7⟩, ⟨0, 42, 5⟩] = some (42, []) ∧
    ∃ pre r, ([⟨0, 99, 7⟩, ⟨0, 42, 5⟩] : List Resp) = pre ++ r :: [] ∧
      (∀ x ∈ pre, x.status = DBUS_STATUS_BUSY ∨ x.addr ≠ 5) ∧
      r.status ≠ DBUS_STATUS_BUSY ∧ r.addr = 5 ∧ 42 = r.data :=
  ⟨by decide, c5_dbus_read_from_matching_scan 5 [⟨0, 99, 7⟩, ⟨0, 42, 5⟩] 42 [] (by decide)⟩

/-- Claim C6: the xlen decision of `riscv_examine` maps (1, 0) to 32,
(0xffffffff, 3) to 64, (0xffffffff, 0xffffffff) to 128, and every other pair
of read-back words to the failure branch. -/
theorem c6_xlen_detection :
    xlen_from_words 1 0 = some 32 ∧
    xlen_from_words 0xffffffff 3 = some 64 ∧
    xlen_from_words 0xffffffff 0xffffffff = some 128 ∧
    ∀ w0 w1, ¬(w0 = 1 ∧ w1 = 0) → ¬(w0 = 0xffffffff ∧ w1 = 3) →
      ¬(w0 = 0xffffffff ∧ w1 = 0xffffffff) → xlen_from_words w0 w1 = none := by
  refine ⟨rfl, rfl, rfl, fun w0 w1 h1 h2 h3 => ?_⟩
  unfold xlen_from_words
  rw [if_neg h1, if_neg h2, if_neg h3]

/-- Claim C6, witness: the pair (2, 2) matches none of the three patterns and
fails examine. -/
theorem c6_witness : xlen_from_words 2 2 = none :=
  c6_xlen_detection.2.2.2 2 2 (by decide) (by decide) (by decide)

/-! ### Concrete states and environments used by witnesses and
counterexamples -/

/-- A fresh 32-bit session: clean cache, zero counters, shadow tselect in
sync (`tselect_dirty = false`), dramsize 16. -/
def stBase : St where
  cache := fun _ => ⟨0, false, false⟩
  dbus_busy_delay := 0
  interrupt_high_delay := 0
  tselect := 0
  tselect_dirty := false
  xlen := 32
  dramsize := 16
  dpc := 0
  dcsr := 0
  misa := 0
  gpr := fun _ => 0

/-- Six successful scan responses echoing address 4 with a low interrupt
bit: enough for the `write_csr` batch (4 dirty lines plus 2 reads). -/
def envSix : Env := { resps := List.replicate 6 ⟨0, 0, 4⟩, waits := [] }

/-- Five successful scan responses echoing address 4: enough for the
`read_csr` batch (3 dirty lines plus 2 reads). -/
def envFive : Env := { resps := List.replicate 5 ⟨0, 0, 4⟩, waits := [] }

/-! ### Claim C1 -/

/-- Claim C1, counterexample.  As stated, the claim says a successful
`maybe_write_tselect` that performed the `write_csr` leaves `tselect_dirty`
false and a successful `maybe_read_tselect` that performed the `read_csr`
leaves it true.  On the fresh session `stBase` (dirty flag false) with six
successful scan responses, `maybe_write_tselect` performs the write, returns
ERROR_OK, and leaves `tselect_dirty = true` — refuting the write half. -/
theorem c1_counterexample :
    ¬ ((∀ s e s' e', s.tselect_dirty = false →
          maybe_write_tselect s e = some (true, s', e') → s'.tselect_dirty = false) ∧
       (∀ s e s' e', s.tselect_dirty = true →
          maybe_read_tselect s e = some (true, s', e') → s'.tselect_dirty = true)) := by
  intro h
  have h1 : (maybe_write_tselect stBase envSix).map (fun r => (r.1, r.2.1.tselect_dirty)) =
      some (true, true) := by decide
  cases hm : maybe_write_tselect stBase envSix with
  | none => rw [hm] at h1; exact Option.noConfusion h1
  | some r =>
    obtain ⟨b, s', e'⟩ := r
    rw [hm] at h1
    simp only [Option.map_some', Option.some.injEq, Prod.mk.injEq] at h1
    obtain ⟨rfl, hdirty⟩ := h1
    have := h.1 stBase envSix s' e' rfl hm
    rw [this] at hdirty
    exact Bool.noConfusion hdirty

/-- Claim C1 (amended): the source's polarity is the reverse of the claim's.
Whenever `maybe_write_tselect` performs the `write_csr` of CSR_TSELECT and
returns success, `tselect_dirty` is true afterwards; whenever
`maybe_read_tselect` performs the `read_csr` and returns success,
`tselect_dirty` is false afterwards. -/
theorem c1_tselect_dirty_amended :
    (∀ s e s' e', s.tselect_dirty = false →
        maybe_write_tselect s e = some (true, s', e') → s'.tselect_dirty = true) ∧
    (∀ s e s' e', s.tselect_dirty = true →
        maybe_read_tselect s e = some (true, s', e') → s'.tselect_dirty = false) := by
  constructor
  · intro s e s' e' hd h
    unfold maybe_write_tselect at h
    rw [hd, if_pos rfl] at h
    rcases hw : write_csr CSR_TSELECT s.tselect s e with _ | ⟨b, s₁, e₁⟩
    · rw [hw] at h; exact absurd h (by simp)
    · rw [hw] at h
      cases b
      · simp at h
      · simp only [Option.some.injEq, Prod.mk.injEq] at h
        obtain ⟨-, h2, -⟩ := h
        rw [← h2]
  · intro s e s' e' hd h
    unfold maybe_read_tselect at h
    rw [hd, if_pos rfl] at h
    rcases hw : read_csr CSR_TSELECT s e with _ | ⟨b, v, s₁, e₁⟩
    · rw [hw] at h; exact absurd h (by simp)
    · rw [hw] at h
      cases b
      · simp at h
      · simp only [Option.some.injEq, Prod.mk.injEq] at h
        obtain ⟨-, h2, -⟩ := h
        rw [← h2]

/-- Claim C1, witness: on the fresh session both amended directions fire on
concrete successful runs — the write leaves the flag true, and from the
resulting dirty state a successful read leaves it false. -/
theorem c1_witness :
    ∃ sW eW sR eR,
      maybe_write_tselect stBase envSix = some (true, sW, eW) ∧ sW.tselect_dirty = true ∧
      maybe_read_tselect { stBase with tselect_dirty := true } envFive = some (true, sR, eR) ∧
      sR.tselect_dirty = false := by
  cases hm : maybe_write_tselect stBase envSix with
  | none =>
    have h1 : (maybe_write_tselect stBase envSix).isSome = true := by decide
    rw [hm] at h1; exact absurd h1 (by simp)
  | some r =>
    obtain ⟨b, sW, eW⟩ := r
    have hb : b = true := by
      have h1 : (maybe_write_tselect stBase envSix).map (fun r => r.1) = some true := by
        decide
      rw [hm] at h1; simpa using h1
    subst hb
    cases hr : maybe_read_tselect { stBase with tselect_dirty := true } envFive with
    | none =>
      have h1 : (maybe_read_tselect { stBase with tselect_dirty := true } envFive).isSome
          = true := by decide
      rw [hr] at h1; exact absurd h1 (by simp)
    | some r2 =>
      obtain ⟨b2, sR, eR⟩ := r2
      have hb2 : b2 = true := by
        have h1 : (maybe_read_tselect { stBase with tselect_dirty := true } envFive).map
            (fun r => r.1) = some true := by decide
        rw [hr] at h1; simpa using h1
      subst hb2
      exact ⟨sW, eW, sR, eR, rfl,
        c1_tselect_dirty_amended.1 stBase envSix sW eW rfl hm, rfl,
        c1_tselect_dirty_amended.2 { stBase with tselect_dirty := true } envFive sR eR rfl hr⟩

/-! ### Claim C9 -/

/-- `buf_set` at bit 0 with width 32 replaces exactly the low 32 bits. -/
theorem buf_set32_char (b v : Nat) :
    buf_set b 0 32 v = v % 2 ^ 32 + b / 2 ^ 32 * 2 ^ 32 := by
  unfold buf_set
  simp [Nat.mod_one]

/-- Claim C9: on a session whose tselect shadow is dirty (so the unchecked
`maybe_write_tselect` prologue is a no-op) with xlen = 64, `register_write`
for PC stores the full 64-bit value into the `dpc` shadow, while
`register_get` for PC writes only 32 bits into the register value buffer
(`buf_set_u32` with width 32): the returned buffer's low 32 bits are the low
32 bits of the written value, its upper bits are whatever the buffer held
before, and a value with a set upper half never round-trips. -/
theorem c9_pc_truncation (s : St) (e : Env) (v : Nat)
    (hx : s.xlen = 64) (hd : s.tselect_dirty = true) :
    ∃ s₁, register_write_pc v s e = some (true, s₁, e) ∧ s₁.dpc = v ∧
      ∀ bufOld, ∃ r, register_get_pc s₁ e bufOld = some (r, s₁, e) ∧
        buf_get r 0 32 = v % 2 ^ 32 ∧
        buf_get r 32 32 = buf_get bufOld 32 32 ∧
        (bufOld < 2 ^ 32 → 2 ^ 32 ≤ v → buf_get r 0 64 ≠ v) := by
  have hmwt : maybe_write_tselect s e = some (true, s, e) := by
    unfold maybe_write_tselect
    rw [hd]
    simp
  refine ⟨{ s with dpc := v }, ?_, rfl, ?_⟩
  · unfold register_write_pc
    rw [hmwt]
  · intro bufOld
    have hmwt2 : maybe_write_tselect { s with dpc := v } e =
        some (true, { s with dpc := v }, e) := by
      unfold maybe_write_tselect
      simp [hd]
    refine ⟨buf_set bufOld 0 32 v, ?_, ?_, ?_, ?_⟩
    · unfold register_get_pc
      rw [hmwt2]
    · rw [buf_set32_char]
      unfold buf_get
      have h32 : (2 : Nat) ^ 32 = 4294967296 := by norm_num
      rw [h32]
      omega
    · rw [buf_set32_char]
      unfold buf_get
      have h32 : (2 : Nat) ^ 32 = 4294967296 := by norm_num
      rw [h32]
      omega
    · intro hb hv
      rw [buf_set32_char]
      unfold buf_get
      have h32 : (2 : Nat) ^ 32 = 4294967296 := by norm_num
      have h64 : (2 : Nat) ^ 64 = 18446744073709551616 := by norm_num
      rw [h32, h64]
      omega

/-- Claim C9, witness: on the concrete 64-bit dirty-shadow session, writing
PC value 2^32 + 7 and reading it back through a zero buffer returns 7. -/
theorem c9_witness :
    ∃ s₁, register_write_pc (2 ^ 32 + 7) { stBase with xlen := 64, tselect_dirty := true }
        envFive = some (true, s₁, envFive) ∧ s₁.dpc = 2 ^ 32 + 7 ∧
      ∃ r, register_get_pc s₁ envFive 0 = some (r, s₁, envFive) ∧
        buf_get r 0 32 = (2 ^ 32 + 7) % 2 ^ 32 ∧
        buf_get r 0 64 ≠ 2 ^ 32 + 7 := by
  obtain ⟨s₁, hw, hdpc, hget⟩ :=
    c9_pc_truncation { stBase with xlen := 64, tselect_dirty := true } envFive
      (2 ^ 32 + 7) rfl rfl
  obtain ⟨r, hr, hlo, -, hne⟩ := hget 0
  exact ⟨s₁, hw, hdpc, r, hr, hlo, hne (by norm_num) (by norm_num)⟩

/-! ### Claim C10 -/

/-- Responses for a one-element 4-byte memory read: four successes for the
preamble `cache_write` batch, then the four loop scans — the last one (the
exception-word read, global scan 3 = count+2) returns 5, and scan 2 carries
the harvested memory data 0xdeadbeef. -/
def envRM : Env :=
  { resps := List.replicate 4 ⟨0, 0, 0⟩ ++
      [⟨0, 0, 0⟩, ⟨0, 0, 0⟩, ⟨0, 0xdeadbeef, 4⟩, ⟨0, 5, 15⟩],
    waits := [] }

/-- Claim C10: `riscv_read_memory` is not atomic in its output.  On the
concrete read of one 4-byte element whose final exception word is 5, the
function returns failure, yet the four buffer bytes of the already-harvested
element 0 — initially all zero — have been overwritten with the data read
during the failed operation (0xdeadbeef, little-endian). -/
theorem c10_read_memory_not_atomic :
    ∃ buf s' e', riscv_read_memory 0x1000 4 1 (fun _ => 0) stBase envRM =
        some (false, buf, 5, s', e') ∧
      buf 0 = 0xef ∧ buf 1 = 0xbe ∧ buf 2 = 0xad ∧ buf 3 = 0xde := by
  have h1 : (riscv_read_memory 0x1000 4 1 (fun _ => 0) stBase envRM).map
      (fun r => (r.1, r.2.2.1, r.2.1 0, r.2.1 1, r.2.1 2, r.2.1 3)) =
      some (false, 5, 0xef, 0xbe, 0xad, 0xde) := by decide
  cases hm : riscv_read_memory 0x1000 4 1 (fun _ => 0) stBase envRM with
  | none => rw [hm] at h1; exact Option.noConfusion h1
  | some r =>
    obtain ⟨ok, buf, rv, s', e'⟩ := r
    rw [hm] at h1
    simp only [Option.map_some', Option.some.injEq, Prod.mk.injEq] at h1
    obtain ⟨hok, hrv, hb0, hb1, hb2, hb3⟩ := h1
    subst hok hrv
    exact ⟨buf, s', e', rfl, hb0, hb1, hb2, hb3⟩

/-! ### Path analysis of `cache_write` (claims C2 and C4) -/

/-- Exhaustive description of the states a returning `cache_write` can leave:
a FAILED/invalid status among the harvested scans aborts with the state
untouched; a BUSY status runs the slow path, bumping `dbus_busy_delay` once
and cleaning the cache; otherwise the fast path cleans the cache and — when a
read-back was requested — either sees the interrupt still high (bumping
`interrupt_high_delay` once) or stores the read-back into the line at the
echoed address. -/
theorem cache_write_spec (address : Nat) (run : Bool) (s : St) (e : Env)
    (ok : Bool) (s' : St) (e' : Env)
    (h : cache_write address run s e = some (ok, s', e')) :
    ((cw_harvest address run s e).any badStatus = true ∧ ok = false ∧ s' = s) ∨
    ((cw_harvest address run s e).any badStatus = false ∧
      (cw_harvest address run s e).any (fun r => r.status == DBUS_STATUS_BUSY) = true ∧
      s' = cache_clean (increase_dbus_busy_delay s)) ∨
    ((cw_harvest address run s e).any badStatus = false ∧
      (cw_harvest address run s e).any (fun r => r.status == DBUS_STATUS_BUSY) = false ∧
      ((¬(run = true ∨ address < CACHE_NO_READ) ∧ ok = true ∧ s' = cache_clean s) ∨
       ((run = true ∨ address < CACHE_NO_READ) ∧
         (s' = increase_interrupt_high_delay (cache_clean s) ∨
          (ok = true ∧ ∃ ra d, s' = cw_revalidate ra d (cache_clean s)))))) := by
  rcases hdw : cw_dbuswrite s e with _ | e₁
  · simp only [cache_write, hdw] at h
    exact Option.noConfusion h
  · simp only [cache_write, hdw] at h
    have hharv : cw_harvest address run s e = e₁.resps.take (cw_nscans s address run) := by
      unfold cw_harvest
      rw [hdw]
    rw [hharv]
    by_cases hlen : e₁.resps.length < cw_nscans s address run
    · rw [if_pos hlen] at h
      exact absurd h (by simp)
    · rw [if_neg hlen] at h
      by_cases hbad : (e₁.resps.take (cw_nscans s address run)).any badStatus = true
      · rw [if_pos hbad] at h
        simp only [Option.some.injEq, Prod.mk.injEq] at h
        obtain ⟨h1, h2, h3⟩ := h
        exact Or.inl ⟨hbad, h1.symm, h2.symm⟩
      · rw [if_neg hbad] at h
        by_cases hbusy :
            (e₁.resps.take (cw_nscans s address run)).any
              (fun r => r.status == DBUS_STATUS_BUSY) = true
        · rw [if_pos hbusy] at h
          rcases hdwr : dram_writes
              { e₁ with resps := e₁.resps.drop (cw_nscans s address run) }
              DRAM_CACHE_SIZE with _ | e₃
          · simp only [hdwr] at h
            exact Option.noConfusion h
          · simp only [hdwr] at h
            rcases hwait : wait_for_debugint_clear true e₃ with _ | ⟨okw, e₄⟩
            · simp only [hwait] at h
              exact Option.noConfusion h
            · simp only [hwait] at h
              simp only [Option.some.injEq, Prod.mk.injEq] at h
              obtain ⟨h1, h2, h3⟩ := h
              exact Or.inr (Or.inl ⟨Bool.not_eq_true _ ▸ hbad, hbusy, h2.symm⟩)
        · rw [if_neg hbusy] at h
          refine Or.inr (Or.inr ⟨Bool.not_eq_true _ ▸ hbad, Bool.not_eq_true _ ▸ hbusy, ?_⟩)
          by_cases hrr : run = true ∨ address < CACHE_NO_READ
          · rw [if_pos hrr] at h
            refine Or.inr ⟨hrr, ?_⟩
            by_cases hint : interruptBit
                ((e₁.resps.take (cw_nscans s address run)).getLastD ⟨0, 0, 0⟩).data = true
            · rw [if_pos hint] at h
              rcases hwait : wait_for_debugint_clear false
                  { e₁ with resps := e₁.resps.drop (cw_nscans s address run) } with
                _ | ⟨okw, e₃⟩
              · simp only [hwait] at h
                exact Option.noConfusion h
              · simp only [hwait] at h
                simp only [Option.some.injEq, Prod.mk.injEq] at h
                obtain ⟨h1, h2, h3⟩ := h
                exact Or.inl h2.symm
            · rw [if_neg hint] at h
              simp only [Option.some.injEq, Prod.mk.injEq] at h
              obtain ⟨h1, h2, h3⟩ := h
              exact Or.inr ⟨h1.symm, _, _, h2.symm⟩
          · rw [if_neg hrr] at h
            simp only [Option.some.injEq, Prod.mk.injEq] at h
            obtain ⟨h1, h2, h3⟩ := h
            exact Or.inl ⟨hrr, h1.symm, h2.symm⟩

/-- `cache_clean` clears every dirty bit of the 16 cache lines. -/
theorem cache_clean_dirty (s : St) (i : Nat) (hi : i < DRAM_CACHE_SIZE) :
    ((cache_clean s).cache i).dirty = false := by
  simp [cache_clean, hi]

/-- `cache_clean` invalidates every cache line with index ≥ 4. -/
theorem cache_clean_valid (s : St) (i : Nat) (h4 : 4 ≤ i) (hi : i < DRAM_CACHE_SIZE) :
    ((cache_clean s).cache i).valid = false := by
  simp [cache_clean, hi, h4]

/-- Pointwise description of the cache after `cw_revalidate`. -/
theorem cw_revalidate_cache (ra d : Nat) (s : St) (i : Nat) :
    (cw_revalidate ra d s).cache i =
      if i = ra then ⟨d % 2 ^ 32, true, (s.cache ra).dirty⟩ else s.cache i := by
  simp only [cw_revalidate]

/-! ### Claim C2 -/

/-- A session whose only interesting line is line 5: valid, clean data 7. -/
def stC2 : St :=
  { stBase with cache := fun i => if i = 5 then ⟨7, true, false⟩ else ⟨0, false, false⟩ }

/-- A single successful scan response. -/
def envOne : Env := { resps := [⟨0, 0, 0⟩], waits := [] }

/-- Claim C2, counterexample.  As stated the claim says a line with index ≥ 4
has `valid = false` after a successful `cache_write` iff `run = true`.  On
`stC2` (line 5 valid, nothing dirty) the call `cache_write 128 false` —
`run = false`, no read-back — succeeds and still leaves line 5 invalid,
because `cache_clean` invalidates lines ≥ 4 unconditionally. -/
theorem c2_counterexample :
    ¬ (∀ address run (s : St) e s' e', cache_write address run s e = some (true, s', e') →
        (∀ i, i < DRAM_CACHE_SIZE → (s.cache i).dirty = true → (s'.cache i).dirty = false) ∧
        (∀ i, 4 ≤ i → i < DRAM_CACHE_SIZE → ((s'.cache i).valid = false ↔ run = true))) := by
  intro h
  have h1 : (cache_write 128 false stC2 envOne).map
      (fun r => (r.1, (r.2.1.cache 5).valid)) = some (true, false) := by decide
  cases hm : cache_write 128 false stC2 envOne with
  | none => rw [hm] at h1; exact Option.noConfusion h1
  | some r =>
    obtain ⟨b, s', e'⟩ := r
    rw [hm] at h1
    simp only [Option.map_some', Option.some.injEq, Prod.mk.injEq] at h1
    obtain ⟨rfl, hvalid⟩ := h1
    have hiff := (h 128 false stC2 envOne s' e' hm).2 5 (by decide) (by decide)
    have : false = true := hiff.mp hvalid
    exact Bool.noConfusion this

/-- Claim C2 (amended): after a successful `cache_write` all 16 dirty bits
are cleared (in particular every line that was dirty is clean); lines ≥ 4 are
invalidated regardless of `run` — when no read-back was requested
(`run = false` and `address ≥ CACHE_NO_READ`) they are all invalid — except
that a performed read-back may re-validate the single line at the echoed read
address, so at most one line ≥ 4 is valid afterwards. -/
theorem c2_cache_write_amended (address : Nat) (run : Bool) (s : St) (e : Env)
    (s' : St) (e' : Env) (h : cache_write address run s e = some (true, s', e')) :
    (∀ i, i < DRAM_CACHE_SIZE → (s'.cache i).dirty = false) ∧
    ((run = false ∧ CACHE_NO_READ ≤ address) →
      ∀ i, 4 ≤ i → i < DRAM_CACHE_SIZE → (s'.cache i).valid = false) ∧
    (∀ i j, 4 ≤ i → i < DRAM_CACHE_SIZE → 4 ≤ j → j < DRAM_CACHE_SIZE →
      (s'.cache i).valid = true → (s'.cache j).valid = true → i = j) := by
  have hclean : ∀ s₀ : St,
      (∀ i, i < DRAM_CACHE_SIZE → ((cache_clean s₀).cache i).dirty = false) ∧
      ((run = false ∧ CACHE_NO_READ ≤ address) →
        ∀ i, 4 ≤ i → i < DRAM_CACHE_SIZE → ((cache_clean s₀).cache i).valid = false) ∧
      (∀ i j, 4 ≤ i → i < DRAM_CACHE_SIZE → 4 ≤ j → j < DRAM_CACHE_SIZE →
        ((cache_clean s₀).cache i).valid = true →
        ((cache_clean s₀).cache j).valid = true → i = j) := by
    intro s₀
    refine ⟨fun i hi => cache_clean_dirty s₀ i hi,
      fun _ i h4 hi => cache_clean_valid s₀ i h4 hi,
      fun i j h4i hii _ _ hvi _ => ?_⟩
    rw [cache_clean_valid s₀ i h4i hii] at hvi
    exact Bool.noConfusion hvi
  rcases cache_write_spec address run s e true s' e' h with
    ⟨-, hok, -⟩ | ⟨-, -, rfl⟩ | ⟨-, -, hfast⟩
  · exact Bool.noConfusion hok
  · exact hclean _
  · rcases hfast with ⟨-, -, rfl⟩ | ⟨hrr, hcase⟩
    · exact hclean _
    · rcases hcase with rfl | ⟨-, ra, d, rfl⟩
      · exact hclean _
      · refine ⟨?_, ?_, ?_⟩
        · intro i hi
          rw [cw_revalidate_cache]
          by_cases hira : i = ra
          · rw [if_pos hira]
            exact cache_clean_dirty s ra (hira ▸ hi)
          · rw [if_neg hira]
            exact cache_clean_dirty s i hi
        · rintro ⟨hrf, hge⟩
          rcases hrr with hrun | haddr
          · rw [hrf] at hrun
            exact absurd hrun (by simp)
          · exact absurd haddr (by omega)
        · intro i j h4i hii h4j hij hvi hvj
          rw [cw_revalidate_cache] at hvi
          rw [cw_revalidate_cache] at hvj
          by_cases hira : i = ra
          · by_cases hjra : j = ra
            · rw [hira, hjra]
            · rw [if_neg hjra, cache_clean_valid s j h4j hij] at hvj
              exact Bool.noConfusion hvj
          · rw [if_neg hira, cache_clean_valid s i h4i hii] at hvi
            exact Bool.noConfusion hvi

/-- Claim C2, witness for the amended theorem: on the concrete successful
`cache_write 128 false` over `stC2`, all dirty bits are clear and line 5
is invalid. -/
theorem c2_witness :
    ∃ s' e', cache_write 128 false stC2 envOne = some (true, s', e') ∧
      (∀ i, i < DRAM_CACHE_SIZE → (s'.cache i).dirty = false) ∧
      (s'.cache 5).valid = false := by
  have h1 : (cache_write 128 false stC2 envOne).map (fun r => r.1) = some true := by decide
  cases hm : cache_write 128 false stC2 envOne with
  | none => rw [hm] at h1; exact Option.noConfusion h1
  | some r =>
    obtain ⟨b, s', e'⟩ := r
    rw [hm] at h1
    simp only [Option.map_some', Option.some.injEq] at h1
    subst h1
    have hmain := c2_cache_write_amended 128 false stC2 envOne s' e' hm
    exact ⟨s', e', rfl, hmain.1,
      hmain.2.1 ⟨rfl, by decide⟩ 5 (by decide) (by decide)⟩

/-! ### Delay-counter behaviour (claim C4) -/

/-- Delay counters across one `cache_write`: never decreased,
`dbus_busy_delay` grows by at most one, and it grows by exactly one whenever
the harvest saw a BUSY status and no FAILED/invalid one. -/
theorem cache_write_delay (address : Nat) (run : Bool) (s : St) (e : Env)
    (ok : Bool) (s' : St) (e' : Env)
    (h : cache_write address run s e = some (ok, s', e')) :
    s.dbus_busy_delay ≤ s'.dbus_busy_delay ∧
    s.interrupt_high_delay ≤ s'.interrupt_high_delay ∧
    (s'.dbus_busy_delay = s.dbus_busy_delay ∨
      s'.dbus_busy_delay = s.dbus_busy_delay + 1) ∧
    ((cw_harvest address run s e).any badStatus = false →
      (cw_harvest address run s e).any (fun r => r.status == DBUS_STATUS_BUSY) = true →
      s'.dbus_busy_delay = s.dbus_busy_delay + 1) := by
  rcases cache_write_spec address run s e ok s' e' h with
    ⟨hbad, -, rfl⟩ | ⟨-, -, rfl⟩ | ⟨hnb, hnbusy, hfast⟩
  · refine ⟨le_refl _, le_refl _, Or.inl rfl, fun hnb2 _ => ?_⟩
    rw [hbad] at hnb2
    exact Bool.noConfusion hnb2
  · exact ⟨Nat.le_succ _, le_refl _, Or.inr rfl, fun _ _ => rfl⟩
  · have hcontra : (cw_harvest address run s e).any badStatus = false →
        (cw_harvest address run s e).any (fun r => r.status == DBUS_STATUS_BUSY) = true →
        s'.dbus_busy_delay = s.dbus_busy_delay + 1 := by
      intro _ hb
      rw [hnbusy] at hb
      exact Bool.noConfusion hb
    rcases hfast with ⟨-, -, rfl⟩ | ⟨-, hcase⟩
    · exact ⟨le_refl _, le_refl _, Or.inl rfl, hcontra⟩
    · rcases hcase with rfl | ⟨-, ra, d, rfl⟩
      · exact ⟨le_refl _, Nat.le_succ _, Or.inl rfl, hcontra⟩
      · exact ⟨le_refl _, le_refl _, Or.inl rfl, hcontra⟩

/-- Delay counters across one `handle_halt_routine`: never decreased; when
the harvest finished with a counted BUSY, `dbus_busy_delay` grows by exactly
one, and without one it is unchanged. -/
theorem hhr_delay (s : St) (e : Env) (re : RE) (s' : St) (e' : Env)
    (h : handle_halt_routine s e = some (re, s', e')) :
    s.dbus_busy_delay ≤ s'.dbus_busy_delay ∧
    s.interrupt_high_delay ≤ s'.interrupt_high_delay ∧
    ∀ hh busy intr, hhr_harvest s.xlen (hhr_batch s e) (hhr_init s) 0 = .done hh busy intr →
      ((busy = true → s'.dbus_busy_delay = s.dbus_busy_delay + 1) ∧
       (busy = false → s'.dbus_busy_delay = s.dbus_busy_delay)) := by
  simp only [handle_halt_routine] at h
  by_cases hlen : e.resps.length < hhr_scan_count s.xlen
  · rw [if_pos hlen] at h
    exact Option.noConfusion h
  · rw [if_neg hlen] at h
    rcases hh : hhr_harvest s.xlen (hhr_batch s e) (hhr_init s) 0 with h₀ | ⟨h₀, busy₀, intr₀⟩
    · simp only [hh, Option.some.injEq, Prod.mk.injEq] at h
      obtain ⟨-, h2, -⟩ := h
      subst h2
      refine ⟨le_refl _, le_refl _, fun hh2 busy intr heq => ?_⟩
      exact HhrOut.noConfusion heq
    · simp only [hh] at h
      have hdone : ∀ hh2 busy intr,
          HhrOut.done h₀ busy₀ intr₀ = HhrOut.done hh2 busy intr → busy₀ = busy := by
        intro hh2 busy intr heq
        injection heq with _ hb _
      cases busy₀
      · cases intr₀
        · simp only [Bool.false_eq_true, if_false, Option.some.injEq, Prod.mk.injEq] at h
          obtain ⟨-, h2, -⟩ := h
          subst h2
          refine ⟨le_refl _, le_refl _, fun hh2 busy intr heq => ?_⟩
          have := hdone hh2 busy intr heq
          constructor
          · intro hb
            rw [← this] at hb
            exact Bool.noConfusion hb
          · intro _
            rfl
        · simp only [Bool.false_eq_true, if_false, if_true, Option.some.injEq,
            Prod.mk.injEq] at h
          obtain ⟨-, h2, -⟩ := h
          subst h2
          refine ⟨le_refl _, Nat.le_succ _, fun hh2 busy intr heq => ?_⟩
          have := hdone hh2 busy intr heq
          constructor
          · intro hb
            rw [← this] at hb
            exact Bool.noConfusion hb
          · intro _
            rfl
      · simp only [if_true, Option.some.injEq, Prod.mk.injEq] at h
        obtain ⟨-, h2, -⟩ := h
        subst h2
        refine ⟨Nat.le_succ _, le_refl _, fun hh2 busy intr heq => ?_⟩
        have := hdone hh2 busy intr heq
        constructor
        · intro _
          rfl
        · intro hb
          rw [← this] at hb
          exact Bool.noConfusion hb

/-- Delay counters across one `riscv_read_memory` batch iteration: a batch
aborted by a FAILED status leaves them untouched; a completed batch never
decreases them, and bumps `dbus_busy_delay` by exactly one iff it counted a
BUSY status. -/
theorem rmem_step_delay (size count i : Nat) (buf : Nat → Nat) (rv : Nat)
    (s : St) (e : Env) :
    (∀ ok buf' rv' s' e', rmem_step size count i buf rv s e = .final ok buf' rv' s' e' →
      s'.dbus_busy_delay = s.dbus_busy_delay ∧
      s'.interrupt_high_delay = s.interrupt_high_delay) ∧
    (∀ i' buf' rv' s' e', rmem_step size count i buf rv s e = .next i' buf' rv' s' e' →
      s.dbus_busy_delay ≤ s'.dbus_busy_delay ∧
      s.interrupt_high_delay ≤ s'.interrupt_high_delay ∧
      ∀ db eb b2 r2,
        rmem_harvest size count i (e.resps.take (min (count + 3 - i) max_batch_size))
          buf rv 0 0 = .done db eb b2 r2 →
        ((db ≠ 0 → s'.dbus_busy_delay = s.dbus_busy_delay + 1) ∧
         (db = 0 → s'.dbus_busy_delay = s.dbus_busy_delay))) := by
  by_cases hlen : e.resps.length < min (count + 3 - i) max_batch_size
  · constructor
    · intro ok buf' rv' s' e' h
      simp only [rmem_step, if_pos hlen] at h
      exact RmStep.noConfusion h
    · intro i' buf' rv' s' e' h
      simp only [rmem_step, if_pos hlen] at h
      exact RmStep.noConfusion h
  · rcases hh : rmem_harvest size count i
        (e.resps.take (min (count + 3 - i) max_batch_size)) buf rv 0 0 with
      ⟨b2, r2⟩ | ⟨db, eb, b2, r2⟩
    · constructor
      · intro ok buf' rv' s' e' h
        simp only [rmem_step, if_neg hlen, hh, RmStep.final.injEq] at h
        obtain ⟨-, -, -, h4, -⟩ := h
        rw [← h4]
        exact ⟨rfl, rfl⟩
      · intro i' buf' rv' s' e' h
        simp only [rmem_step, if_neg hlen, hh] at h
        exact RmStep.noConfusion h
    · constructor
      · intro ok buf' rv' s' e' h
        simp only [rmem_step, if_neg hlen, hh] at h
        by_cases hcond : db ≠ 0 ∨ eb ≠ 0
        · rw [if_pos hcond] at h
          rcases hwait : wait_for_debugint_clear false
              { e with resps := e.resps.drop (min (count + 3 - i) max_batch_size) } with
            _ | ⟨okw, e₂⟩
          · rw [hwait] at h
            exact RmStep.noConfusion h
          · rw [hwait] at h
            exact RmStep.noConfusion h
        · rw [if_neg hcond] at h
          exact RmStep.noConfusion h
      · intro i' buf' rv' s' e' h
        simp only [rmem_step, if_neg hlen, hh] at h
        by_cases hdb : db = 0
        · by_cases heb : eb = 0
          · have hcond : ¬(db ≠ 0 ∨ eb ≠ 0) := by
              push_neg
              exact ⟨hdb, heb⟩
            rw [if_neg hcond] at h
            simp only [hdb, if_neg (by simp : ¬(0 : Nat) ≠ 0), heb,
              RmStep.next.injEq] at h
            obtain ⟨-, -, -, h4, -⟩ := h
            rw [← h4]
            refine ⟨le_refl _, le_refl _, fun db' eb' b2' r2' heq => ?_⟩
            injection heq with hdb' heb' hb2' hr2'
            rw [← hdb']
            exact ⟨fun hne => absurd hdb hne, fun _ => rfl⟩
          · have hcond : db ≠ 0 ∨ eb ≠ 0 := Or.inr heb
            rw [if_pos hcond] at h
            rcases hwait : wait_for_debugint_clear false
                { e with resps := e.resps.drop (min (count + 3 - i) max_batch_size) } with
              _ | ⟨okw, e₂⟩
            · rw [hwait] at h
              exact RmStep.noConfusion h
            · rw [hwait] at h
              simp only [hdb, if_neg (by simp : ¬(0 : Nat) ≠ 0), if_pos heb,
                RmStep.next.injEq] at h
              obtain ⟨-, -, -, h4, -⟩ := h
              rw [← h4]
              refine ⟨le_refl _, Nat.le_succ _, fun db' eb' b2' r2' heq => ?_⟩
              injection heq with hdb' heb' hb2' hr2'
              rw [← hdb']
              exact ⟨fun hne => absurd hdb hne, fun _ => rfl⟩
        · have hcond : db ≠ 0 ∨ eb ≠ 0 := Or.inl hdb
          rw [if_pos hcond] at h
          rcases hwait : wait_for_debugint_clear false
              { e with resps := e.resps.drop (min (count + 3 - i) max_batch_size) } with
            _ | ⟨okw, e₂⟩
          · rw [hwait] at h
            exact RmStep.noConfusion h
          · rw [hwait] at h
            rw [if_pos hdb] at h
            by_cases heb : eb = 0
            · simp only [heb, if_neg (by simp : ¬(0 : Nat) ≠ 0), RmStep.next.injEq] at h
              obtain ⟨-, -, -, h4, -⟩ := h
              rw [← h4]
              refine ⟨Nat.le_succ _, le_refl _, fun db' eb' b2' r2' heq => ?_⟩
              injection heq with hdb' heb' hb2' hr2'
              rw [← hdb']
              exact ⟨fun _ => rfl, fun h0 => absurd h0 hdb⟩
            · rw [if_pos heb] at h
              simp only [RmStep.next.injEq] at h
              obtain ⟨-, -, -, h4, -⟩ := h
              rw [← h4]
              refine ⟨Nat.le_succ _, Nat.le_succ _, fun db' eb' b2' r2' heq => ?_⟩
              injection heq with hdb' heb' hb2' hr2'
              rw [← hdb']
              exact ⟨fun _ => rfl, fun h0 => absurd h0 hdb⟩

/-- Delay counters across the whole `riscv_read_memory` loop: never
decreased, under any response sequence. -/
theorem rmem_loop_delay (size count : Nat) :
    ∀ fuel i buf rv (s : St) e ok buf' rv' s' e',
      rmem_loop size count fuel i buf rv s e = some (ok, buf', rv', s', e') →
      s.dbus_busy_delay ≤ s'.dbus_busy_delay ∧
      s.interrupt_high_delay ≤ s'.interrupt_high_delay := by
  intro fuel
  induction fuel with
  | zero =>
    intro i buf rv s e ok buf' rv' s' e' h
    exact Option.noConfusion h
  | succ fuel ih =>
    intro i buf rv s e ok buf' rv' s' e' h
    rw [rmem_loop] at h
    by_cases hend : count + 3 ≤ i
    · rw [if_pos hend] at h
      simp only [Option.some.injEq, Prod.mk.injEq] at h
      obtain ⟨-, -, -, h4, -⟩ := h
      rw [← h4]
      exact ⟨le_refl _, le_refl _⟩
    · rw [if_neg hend] at h
      rcases hstep : rmem_step size count i buf rv s e with
        ⟨okf, buff, rvf, sf, ef⟩ | ⟨i2, buf2, rv2, s2, e2⟩ | _
      · rw [hstep] at h
        simp only [Option.some.injEq, Prod.mk.injEq] at h
        obtain ⟨-, -, -, h4, -⟩ := h
        obtain ⟨hb, hi⟩ := (rmem_step_delay size count i buf rv s e).1 _ _ _ _ _ hstep
        rw [← h4]
        constructor
        · show s.dbus_busy_delay ≤ (cache_clean sf).dbus_busy_delay
          rw [show (cache_clean sf).dbus_busy_delay = sf.dbus_busy_delay from rfl, hb]
        · show s.interrupt_high_delay ≤ (cache_clean sf).interrupt_high_delay
          rw [show (cache_clean sf).interrupt_high_delay = sf.interrupt_high_delay from rfl, hi]
      · rw [hstep] at h
        obtain ⟨hb, hi, -⟩ := (rmem_step_delay size count i buf rv s e).2 _ _ _ _ _ hstep
        obtain ⟨hb2, hi2⟩ := ih _ _ _ _ _ _ _ _ _ _ h
        exact ⟨le_trans hb hb2, le_trans hi hi2⟩
      · rw [hstep] at h
        exact Option.noConfusion h

/-! ### Claim C4 -/

/-- A session whose line 0 is dirty: `cache_write 4 true` enqueues one write
scan and two read scans. -/
def stC4 : St :=
  { stBase with cache := fun i => if i = 0 then ⟨1, true, true⟩ else ⟨0, false, false⟩ }

/-- A batch answered BUSY, then FAILED, then SUCCESS. -/
def envC4 : Env := { resps := [⟨3, 0, 0⟩, ⟨2, 0, 0⟩, ⟨0, 0, 4⟩], waits := [] }

/-- A batch whose first scan is BUSY and everything else succeeds, with
enough responses for the slow path's 16 per-word writes and a wait sample
stream that clears the interrupt at once. -/
def envC4W : Env :=
  { resps := ⟨3, 0, 0⟩ :: List.replicate 18 ⟨0, 0, 0⟩,
    waits := [(⟨false, false⟩, 0), (⟨false, false⟩, 0)] }

/-- Claim C4, counterexample.  As stated, a batched operation that observes
one or more BUSY statuses increments `dbus_busy_delay` by exactly one.  But a
`cache_write` batch that answers BUSY and then FAILED aborts on the FAILED
status (riscv.c line 781) before reaching `increase_dbus_busy_delay`: the
operation observed a BUSY yet the counter is unchanged. -/
theorem c4_counterexample :
    ¬ (∀ address run (s : St) e ok s' e', cache_write address run s e = some (ok, s', e') →
        s.dbus_busy_delay ≤ s'.dbus_busy_delay ∧
        ((cw_harvest address run s e).any (fun r => r.status == DBUS_STATUS_BUSY) = true →
          s'.dbus_busy_delay = s.dbus_busy_delay + 1)) := by
  intro h
  have h1 : (cache_write 4 true stC4 envC4).map (fun r => r.2.1.dbus_busy_delay) =
      some 0 := by decide
  have h2 : (cw_harvest 4 true stC4 envC4).any (fun r => r.status == DBUS_STATUS_BUSY) =
      true := by decide
  cases hm : cache_write 4 true stC4 envC4 with
  | none => rw [hm] at h1; exact Option.noConfusion h1
  | some r =>
    obtain ⟨b, s', e'⟩ := r
    rw [hm] at h1
    simp only [Option.map_some', Option.some.injEq] at h1
    have h3 := (h 4 true stC4 envC4 b s' e' hm).2 h2
    rw [h1] at h3
    exact absurd h3 (by decide)

/-- Claim C4 (amended): under every response sequence, `dbus_busy_delay` and
`interrupt_high_delay` never decrease across `cache_write`,
`handle_halt_routine`, a `riscv_read_memory` batch iteration, or the whole
`riscv_read_memory` loop; and a single batch that observes one or more BUSY
statuses — and no FAILED or invalid status, which would abort the operation
before the bump — increments `dbus_busy_delay` by exactly one (never more, and
not at all when no BUSY was observed). -/
theorem c4_delay_amended :
    (∀ address run (s : St) e ok s' e',
        cache_write address run s e = some (ok, s', e') →
        s.dbus_busy_delay ≤ s'.dbus_busy_delay ∧
        s.interrupt_high_delay ≤ s'.interrupt_high_delay ∧
        (s'.dbus_busy_delay = s.dbus_busy_delay ∨
          s'.dbus_busy_delay = s.dbus_busy_delay + 1) ∧
        ((cw_harvest address run s e).any badStatus = false →
          (cw_harvest address run s e).any (fun r => r.status == DBUS_STATUS_BUSY) = true →
          s'.dbus_busy_delay = s.dbus_busy_delay + 1)) ∧
    (∀ (s : St) e re s' e', handle_halt_routine s e = some (re, s', e') →
        s.dbus_busy_delay ≤ s'.dbus_busy_delay ∧
        s.interrupt_high_delay ≤ s'.interrupt_high_delay ∧
        ∀ hh busy intr,
          hhr_harvest s.xlen (hhr_batch s e) (hhr_init s) 0 = .done hh busy intr →
          ((busy = true → s'.dbus_busy_delay = s.dbus_busy_delay + 1) ∧
           (busy = false → s'.dbus_busy_delay = s.dbus_busy_delay))) ∧
    (∀ size count i buf rv (s : St) e,
        (∀ ok buf' rv' s' e',
          rmem_step size count i buf rv s e = .final ok buf' rv' s' e' →
          s'.dbus_busy_delay = s.dbus_busy_delay ∧
          s'.interrupt_high_delay = s.interrupt_high_delay) ∧
        (∀ i' buf' rv' s' e',
          rmem_step size count i buf rv s e = .next i' buf' rv' s' e' →
          s.dbus_busy_delay ≤ s'.dbus_busy_delay ∧
          s.interrupt_high_delay ≤ s'.interrupt_high_delay ∧
          ∀ db eb b2 r2,
            rmem_harvest size count i (e.resps.take (min (count + 3 - i) max_batch_size))
              buf rv 0 0 = .done db eb b2 r2 →
            ((db ≠ 0 → s'.dbus_busy_delay = s.dbus_busy_delay + 1) ∧
             (db = 0 → s'.dbus_busy_delay = s.dbus_busy_delay)))) ∧
    (∀ size count fuel i buf rv (s : St) e ok buf' rv' s' e',
        rmem_loop size count fuel i buf rv s e = some (ok, buf', rv', s', e') →
        s.dbus_busy_delay ≤ s'.dbus_busy_delay ∧
        s.interrupt_high_delay ≤ s'.interrupt_high_delay) :=
  ⟨cache_write_delay, hhr_delay, rmem_step_delay,
    fun size count => rmem_loop_delay size count⟩

/-- Claim C4, witness: the concrete slow-path `cache_write` over `stC4` whose
batch starts with a BUSY and contains no FAILED bumps `dbus_busy_delay` by
exactly one. -/
theorem c4_witness :
    ∃ ok s' e', cache_write 4 true stC4 envC4W = some (ok, s', e') ∧
      s'.dbus_busy_delay = stC4.dbus_busy_delay + 1 := by
  have h2 : (cw_harvest 4 true stC4 envC4W).any badStatus = false := by decide
  have h3 : (cw_harvest 4 true stC4 envC4W).any (fun r => r.status == DBUS_STATUS_BUSY) =
      true := by decide
  cases hm : cache_write 4 true stC4 envC4W with
  | none =>
    have h1 : (cache_write 4 true stC4 envC4W).isSome = true := by decide
    rw [hm] at h1
    exact Bool.noConfusion h1
  | some r =>
    obtain ⟨b, s', e'⟩ := r
    exact ⟨b, s', e', rfl,
      (c4_delay_amended.1 4 true stC4 envC4W b s' e' hm).2.2.2 h2 h3⟩

/-! ### Claim C7 -/

/-- Reading back the entry just set. -/
theorem getD_set_self (l : List Int) (k : Nat) (v : Int) (hk : k < l.length) :
    (l.set k v).getD k 0 = v := by
  rw [List.getD_eq_getElem?_getD, List.getElem?_set_eq_of_lt v hk]
  rfl

/-- Setting one entry leaves every other entry unchanged. -/
theorem getD_set_ne (l : List Int) (k j : Nat) (v : Int) (hj : j ≠ k) :
    (l.set k v).getD j 0 = l.getD j 0 := by
  rw [List.getD_eq_getElem?_getD, List.getD_eq_getElem?_getD,
    List.getElem?_set_ne (fun hkj => hj hkj.symm)]

/-- What a returning `add_trigger_loop` did: the claimed slot lies at or
above the start index, below MAX_HWBPS, was free before, and exactly it was
set to the trigger's unique id. -/
theorem add_trigger_loop_spec (s : St) (hw : TrigHw) (t : Trigger) :
    ∀ fuel i (tuid : List Int) k a',
      add_trigger_loop s hw t fuel i tuid = (some k, a') →
      i ≤ k ∧ k < MAX_HWBPS ∧ tuid.getD k 0 = -1 ∧ a' = tuid.set k t.unique_id := by
  intro fuel
  induction fuel with
  | zero =>
    intro i tuid k a' h
    rw [add_trigger_loop] at h
    exact Option.noConfusion (congrArg Prod.fst h)
  | succ fuel ih =>
    intro i tuid k a' h
    simp only [add_trigger_loop] at h
    by_cases h16 : MAX_HWBPS ≤ i
    · rw [if_pos h16] at h
      exact Option.noConfusion (congrArg Prod.fst h)
    · rw [if_neg h16] at h
      by_cases hused : tuid.getD i 0 ≠ -1
      · rw [if_pos hused] at h
        obtain ⟨h1, h2, h3, h4⟩ := ih (i + 1) tuid k a' h
        exact ⟨by omega, h2, h3, h4⟩
      · rw [if_neg hused] at h
        by_cases hts : hw.tselect_rb i ≠ i
        · rw [if_pos hts] at h
          exact Option.noConfusion (congrArg Prod.fst h)
        · rw [if_neg hts] at h
          by_cases hty : get_field (hw.tdata1 i) (MCONTROL_TYPE s.xlen) ≠ 2
          · rw [if_pos hty] at h
            obtain ⟨h1, h2, h3, h4⟩ := ih (i + 1) tuid k a' h
            exact ⟨by omega, h2, h3, h4⟩
          · rw [if_neg hty] at h
            by_cases hcl : hw.tdata1 i &&&
                (MCONTROL_EXECUTE ||| MCONTROL_STORE ||| MCONTROL_LOAD) ≠ 0
            · rw [if_pos hcl] at h
              obtain ⟨h1, h2, h3, h4⟩ := ih (i + 1) tuid k a' h
              exact ⟨by omega, h2, h3, h4⟩
            · rw [if_neg hcl] at h
              by_cases hconf : trig_conf s t (hw.tdata1 i) ≠
                  hw.tdata1_rb i (trig_conf s t (hw.tdata1 i))
              · rw [if_pos hconf] at h
                obtain ⟨h1, h2, h3, h4⟩ := ih (i + 1) tuid k a' h
                exact ⟨by omega, h2, h3, h4⟩
              · rw [if_neg hconf] at h
                obtain rfl : i = k := Option.some.inj (congrArg Prod.fst h)
                exact ⟨le_refl _, by omega, not_not.mp hused,
                  (congrArg Prod.snd h).symm⟩

/-- What a successful `remove_trigger_find` found: the lowest owned slot at
or above the start index. -/
theorem remove_trigger_find_spec (uid : Int) (tuid : List Int) :
    ∀ fuel i k, remove_trigger_find uid tuid fuel i = some k →
      i ≤ k ∧ k < MAX_HWBPS ∧ tuid.getD k 0 = uid ∧
      ∀ j, i ≤ j → j < k → tuid.getD j 0 ≠ uid := by
  intro fuel
  induction fuel with
  | zero =>
    intro i k h
    exact Option.noConfusion h
  | succ fuel ih =>
    intro i k h
    rw [remove_trigger_find] at h
    by_cases h16 : MAX_HWBPS ≤ i
    · rw [if_pos h16] at h
      exact Option.noConfusion h
    · rw [if_neg h16] at h
      by_cases hown : tuid.getD i 0 = uid
      · rw [if_pos hown] at h
        obtain rfl : i = k := Option.some.inj h
        exact ⟨le_refl _, by omega, hown, fun j hij hjk => by omega⟩
      · rw [if_neg hown] at h
        obtain ⟨h1, h2, h3, h4⟩ := ih (i + 1) k h
        refine ⟨by omega, h2, h3, fun j hij hjk => ?_⟩
        rcases Nat.eq_or_lt_of_le hij with rfl | hlt
        · exact hown
        · exact h4 j hlt hjk

/-- `remove_trigger_find` succeeds whenever some slot in range is owned. -/
theorem remove_trigger_find_mem (uid : Int) (tuid : List Int) :
    ∀ fuel i, (∃ k, i ≤ k ∧ k < MAX_HWBPS ∧ k < i + fuel ∧ tuid.getD k 0 = uid) →
      (remove_trigger_find uid tuid fuel i).isSome = true := by
  intro fuel
  induction fuel with
  | zero =>
    rintro i ⟨k, hik, -, hk0, -⟩
    omega
  | succ fuel ih =>
    rintro i ⟨k, hik, hk16, hkf, hown⟩
    rw [remove_trigger_find]
    by_cases h16 : MAX_HWBPS ≤ i
    · omega
    · rw [if_neg h16]
      by_cases hi : tuid.getD i 0 = uid
      · rw [if_pos hi]
        rfl
      · rw [if_neg hi]
        refine ih (i + 1) ⟨k, ?_, hk16, by omega, hown⟩
        rcases Nat.eq_or_lt_of_le hik with rfl | hlt
        · exact absurd hown hi
        · omega

/-- Claim C7: trigger slots are allocated exclusively.  A successful
`add_trigger` claims a slot that was free (-1), writes exactly the trigger's
unique id there and leaves every other entry unchanged; two successful
`add_trigger` calls without an intervening remove claim distinct slots (for a
real unique id, i.e. one different from the -1 sentinel); a successful
`remove_trigger` frees exactly the lowest slot owned by the unique id,
leaving all other entries unchanged, and it succeeds whenever the unique id
owns a slot. -/
theorem c7_trigger_exclusive :
    (∀ (s : St) hw t (tuid : List Int) k a',
        tuid.length = MAX_HWBPS →
        add_trigger s hw t tuid = (some k, a') →
        k < MAX_HWBPS ∧ tuid.getD k 0 = -1 ∧ a'.getD k 0 = t.unique_id ∧
        ∀ j, j ≠ k → a'.getD j 0 = tuid.getD j 0) ∧
    (∀ (s : St) hw t₁ t₂ (tuid : List Int) k₁ a₁ k₂ a₂,
        tuid.length = MAX_HWBPS → t₁.unique_id ≠ -1 →
        add_trigger s hw t₁ tuid = (some k₁, a₁) →
        add_trigger s hw t₂ a₁ = (some k₂, a₂) → k₁ ≠ k₂) ∧
    (∀ uid (tuid : List Int) a',
        tuid.length = MAX_HWBPS →
        remove_trigger uid tuid = (true, a') →
        ∃ k, k < MAX_HWBPS ∧ tuid.getD k 0 = uid ∧ a' = tuid.set k (-1) ∧
          a'.getD k 0 = -1 ∧ (∀ j, j ≠ k → a'.getD j 0 = tuid.getD j 0) ∧
          ∀ j, j < k → tuid.getD j 0 ≠ uid) ∧
    (∀ uid (tuid : List Int),
        (∃ k, k < MAX_HWBPS ∧ tuid.getD k 0 = uid) →
        (remove_trigger uid tuid).1 = true) := by
  have hadd : ∀ (s : St) hw t (tuid : List Int) k a',
      tuid.length = MAX_HWBPS →
      add_trigger s hw t tuid = (some k, a') →
      k < MAX_HWBPS ∧ tuid.getD k 0 = -1 ∧ a'.getD k 0 = t.unique_id ∧
      ∀ j, j ≠ k → a'.getD j 0 = tuid.getD j 0 := by
    intro s hw t tuid k a' hlen h
    obtain ⟨-, hk16, hfree, rfl⟩ := add_trigger_loop_spec s hw t MAX_HWBPS 0 tuid k a' h
    exact ⟨hk16, hfree, getD_set_self tuid k t.unique_id (by omega),
      fun j hj => getD_set_ne tuid k j t.unique_id hj⟩
  refine ⟨hadd, ?_, ?_, ?_⟩
  · intro s hw t₁ t₂ tuid k₁ a₁ k₂ a₂ hlen huid h1 h2
    obtain ⟨hk1, -, hset1, -⟩ := hadd s hw t₁ tuid k₁ a₁ hlen h1
    have hlen1 : a₁.length = MAX_HWBPS := by
      obtain ⟨-, -, -, rfl⟩ := add_trigger_loop_spec s hw t₁ MAX_HWBPS 0 tuid k₁ a₁ h1
      rw [List.length_set]
      exact hlen
    obtain ⟨-, hfree2, -, -⟩ := hadd s hw t₂ a₁ k₂ a₂ hlen1 h2
    intro hkk
    rw [← hkk] at hfree2
    rw [hset1] at hfree2
    exact huid hfree2
  · intro uid tuid a' hlen h
    unfold remove_trigger at h
    rcases hf : remove_trigger_find uid tuid MAX_HWBPS 0 with _ | k
    · rw [hf] at h
      exact absurd (congrArg Prod.fst h) (by simp)
    · rw [hf] at h
      obtain ⟨-, hk16, hown, hmin⟩ := remove_trigger_find_spec uid tuid MAX_HWBPS 0 k hf
      obtain rfl : tuid.set k (-1) = a' := congrArg Prod.snd h
      exact ⟨k, hk16, hown, rfl, getD_set_self tuid k (-1) (by omega),
        fun j hj => getD_set_ne tuid k j (-1) hj,
        fun j hjk => hmin j (Nat.zero_le j) hjk⟩
  · rintro uid tuid ⟨k, hk16, hown⟩
    unfold remove_trigger
    rcases hf : remove_trigger_find uid tuid MAX_HWBPS 0 with _ | k2
    · have := remove_trigger_find_mem uid tuid MAX_HWBPS 0
        ⟨k, Nat.zero_le k, hk16, by omega, hown⟩
      rw [hf] at this
      exact Bool.noConfusion this
    · rfl

/-- The all-free trigger table (riscv_init_target memsets it to -1). -/
def tuidFree : List Int := List.replicate 16 (-1)

/-- A cooperative trigger-CSR oracle: tselect reads back as written, every
slot starts as an unclaimed type-2 (address/data match) trigger, and tdata1
reads back exactly what was written. -/
def trigHwOk : TrigHw where
  tselect_rb := fun i => i
  tdata1 := fun _ => 2 <<< 28
  tdata1_rb := fun _ conf => conf

/-- An execute trigger owned by unique id 7. -/
def trig7 : Trigger := ⟨0x2000, 4, 0, 0, false, false, true, 7⟩

/-- An execute trigger owned by unique id 9. -/
def trig9 : Trigger := ⟨0x3000, 4, 0, 0, false, false, true, 9⟩

/-- Claim C7, witness: on the all-free 16-entry table with a cooperative
oracle, adding trigger 7 claims the free slot 0 and marks it 7; adding
trigger 9 next claims a distinct slot; removing 7 frees slot 0 again. -/
theorem c7_witness :
    ∃ a₁ a₂ a₃,
      add_trigger stBase trigHwOk trig7 tuidFree = (some 0, a₁) ∧
      add_trigger stBase trigHwOk trig9 a₁ = (some 1, a₂) ∧
      (0 : Nat) ≠ 1 ∧ tuidFree.getD 0 0 = -1 ∧ a₁.getD 0 0 = 7 ∧
      remove_trigger 7 a₁ = (true, a₃) ∧ a₃.getD 0 0 = -1 := by
  have h1 : add_trigger stBase trigHwOk trig7 tuidFree = (some 0, tuidFree.set 0 7) := by
    decide
  have h2 : add_trigger stBase trigHwOk trig9 (tuidFree.set 0 7) =
      (some 1, (tuidFree.set 0 7).set 1 9) := by decide
  have h3 : remove_trigger 7 (tuidFree.set 0 7) =
      (true, (tuidFree.set 0 7).set 0 (-1)) := by decide
  refine ⟨tuidFree.set 0 7, (tuidFree.set 0 7).set 1 9, (tuidFree.set 0 7).set 0 (-1),
    h1, h2, ?_, ?_, ?_, h3, by decide⟩
  · exact c7_trigger_exclusive.2.1 stBase trigHwOk trig7 trig9 tuidFree 0 _ 1 _
      (by decide) (by decide) h1 h2
  · exact (c7_trigger_exclusive.1 stBase trigHwOk trig7 tuidFree 0 _
      (by decide) h1).2.1
  · exact (c7_trigger_exclusive.1 stBase trigHwOk trig7 tuidFree 0 _
      (by decide) h1).2.2.1

/-! ### Claim C8 -/

/-- Characterisation of one harvested batch under clean responses (all
SUCCESS, interrupt low): the harvest completes with no BUSY and no
interrupt-high counted, `result_value` is taken from global scan `count + 2`
when that scan lies in the batch, buffer element `k` receives the bytes of
the data field of global scan `k + 2`, and positions outside every scan's
window are untouched. -/
theorem rmem_harvest_clean (size count : Nat) :
    ∀ (batch : List Resp) (g : Nat) (buf : Nat → Nat) (rv db eb : Nat),
      (∀ r ∈ batch, r.status = DBUS_STATUS_SUCCESS ∧ interruptBit r.data = false) →
      ∃ buf' rv', rmem_harvest size count g batch buf rv db eb = .done db eb buf' rv' ∧
        (rv' = if g ≤ count + 2 ∧ count + 2 < g + batch.length then
            (batch.getD (count + 2 - g) ⟨0, 0, 0⟩).data % 2 ^ 32 else rv) ∧
        (∀ k b, b < size → g ≤ k + 2 → k + 2 < g + batch.length → k + 2 ≠ count + 2 →
          buf' (size * k + b) = byteOf (batch.getD (k + 2 - g) ⟨0, 0, 0⟩).data b) ∧
        (∀ p, (∀ j, j < batch.length → g + j ≤ 1 ∨ g + j = count + 2 ∨
            p < size * (g + j - 2) ∨ size * (g + j - 2) + size ≤ p) →
          buf' p = buf p) := by
  intro batch
  induction batch with
  | nil =>
    intro g buf rv db eb hclean
    refine ⟨buf, rv, rfl, ?_, ?_, fun p _ => rfl⟩
    · rw [if_neg]
      rintro ⟨h1, h2⟩
      simp only [List.length_nil, Nat.add_zero] at h2
      omega
    · intro k b hb hg hlt hne
      simp only [List.length_nil, Nat.add_zero] at hlt
      omega
  | cons r rest ih =>
    intro g buf rv db eb hclean
    obtain ⟨hst, hint⟩ := hclean r (List.mem_cons_self r rest)
    have hcr : ∀ x ∈ rest, x.status = DBUS_STATUS_SUCCESS ∧ interruptBit x.data = false :=
      fun x hx => hclean x (List.mem_cons_of_mem r hx)
    have hstep : rmem_harvest size count g (r :: rest) buf rv db eb =
        (if g = count + 2 then
          rmem_harvest size count (g + 1) rest buf (r.data % 2 ^ 32) db eb
        else if g > 1 then
          rmem_harvest size count (g + 1) rest
            (rmem_store size (size * (g - 2)) r.data buf) rv db eb
        else rmem_harvest size count (g + 1) rest buf rv db eb) := by
      rw [rmem_harvest, if_pos (Or.inl hst), hst, hint]
      simp only [if_neg (by decide : ¬DBUS_STATUS_SUCCESS = DBUS_STATUS_BUSY),
        if_neg (by decide : ¬false = true)]
    by_cases hg2 : g = count + 2
    · obtain ⟨buf', rv', hrun, hrv, hwr, hfr⟩ :=
        ih (g + 1) buf (r.data % 2 ^ 32) db eb hcr
      rw [hstep, if_pos hg2, hrun]
      refine ⟨buf', rv', rfl, ?_, ?_, ?_⟩
      · rw [hrv, if_neg (by omega), if_pos (by simp only [List.length_cons]; omega)]
        have h0 : count + 2 - g = 0 := by omega
        rw [h0, List.getD_cons_zero]
      · intro k b hb hg hlt hne
        simp only [List.length_cons] at hlt
        have hk1 : g + 1 ≤ k + 2 := by omega
        have hidx : k + 2 - g = (k + 2 - (g + 1)) + 1 := by omega
        rw [hidx, List.getD_cons_succ]
        exact hwr k b hb hk1 (by omega) hne
      · intro p hp
        refine hfr p fun j hj => ?_
        have := hp (j + 1) (by simp only [List.length_cons]; omega)
        have harith : g + 1 + j = g + (j + 1) := by omega
        rw [harith]
        exact this
    · by_cases hg1 : g > 1
      · obtain ⟨buf', rv', hrun, hrv, hwr, hfr⟩ :=
          ih (g + 1) (rmem_store size (size * (g - 2)) r.data buf) rv db eb hcr
        rw [hstep, if_neg hg2, if_pos hg1, hrun]
        refine ⟨buf', rv', rfl, ?_, ?_, ?_⟩
        · rw [hrv]
          by_cases hc : g + 1 ≤ count + 2 ∧ count + 2 < g + 1 + rest.length
          · rw [if_pos hc, if_pos (by simp only [List.length_cons]; omega)]
            have hidx : count + 2 - g = (count + 2 - (g + 1)) + 1 := by omega
            rw [hidx, List.getD_cons_succ]
          · rw [if_neg hc, if_neg]
            rintro ⟨h1, h2⟩
            simp only [List.length_cons] at h2
            exact hc ⟨by omega, by omega⟩
        · intro k b hb hg hlt hne
          simp only [List.length_cons] at hlt
          by_cases hkg : k + 2 = g
          · have hpk : buf' (size * k + b) =
                rmem_store size (size * (g - 2)) r.data buf (size * k + b) := by
              refine hfr (size * k + b) fun j hj => ?_
              right; right; left
              have : size * (g + 1 + j - 2) = size * (k + 1 + j) := by
                congr 1
                omega
              rw [this]
              have h1 : size * k + b < size * (k + 1) := by
                have := Nat.mul_le_mul_left size (Nat.le_refl (k + 1))
                calc size * k + b < size * k + size := by omega
                  _ = size * (k + 1) := by ring
              calc size * k + b < size * (k + 1) := h1
                _ ≤ size * (k + 1 + j) := Nat.mul_le_mul_left size (by omega)
            rw [hpk]
            unfold rmem_store
            have hoff : size * (g - 2) = size * k := by
              congr 1
              omega
            rw [hoff, if_pos ⟨by omega, by omega⟩]
            have hidx0 : k + 2 - g = 0 := by omega
            rw [hidx0, List.getD_cons_zero]
            congr 1
            omega
          · have hk1 : g + 1 ≤ k + 2 := by omega
            have hidx : k + 2 - g = (k + 2 - (g + 1)) + 1 := by omega
            rw [hidx, List.getD_cons_succ]
            exact hwr k b hb hk1 (by omega) hne
        · intro p hp
          have hhead := hp 0 (by simp only [List.length_cons]; omega)
          simp only [Nat.add_zero] at hhead
          have hrest : buf' p = rmem_store size (size * (g - 2)) r.data buf p := by
            refine hfr p fun j hj => ?_
            have := hp (j + 1) (by simp only [List.length_cons]; omega)
            have harith : g + 1 + j = g + (j + 1) := by omega
            rw [harith]
            exact this
          rw [hrest]
          unfold rmem_store
          rw [if_neg]
          rintro ⟨hp1, hp2⟩
          rcases hhead with h | h | h | h
          · omega
          · exact hg2 h
          · omega
          · omega
      · obtain ⟨buf', rv', hrun, hrv, hwr, hfr⟩ := ih (g + 1) buf rv db eb hcr
        rw [hstep, if_neg hg2, if_neg hg1, hrun]
        refine ⟨buf', rv', rfl, ?_, ?_, ?_⟩
        · rw [hrv]
          by_cases hc : g + 1 ≤ count + 2 ∧ count + 2 < g + 1 + rest.length
          · rw [if_pos hc, if_pos (by simp only [List.length_cons]; omega)]
            have hidx : count + 2 - g = (count + 2 - (g + 1)) + 1 := by omega
            rw [hidx, List.getD_cons_succ]
          · rw [if_neg hc, if_neg]
            rintro ⟨h1, h2⟩
            simp only [List.length_cons] at h2
            exact hc ⟨by omega, by omega⟩
        · intro k b hb hg hlt hne
          simp only [List.length_cons] at hlt
          have hk1 : g + 1 ≤ k + 2 := by omega
          have hidx : k + 2 - g = (k + 2 - (g + 1)) + 1 := by omega
          rw [hidx, List.getD_cons_succ]
          exact hwr k b hb hk1 (by omega) hne
        · intro p hp
          refine hfr p fun j hj => ?_
          have := hp (j + 1) (by simp only [List.length_cons]; omega)
          have harith : g + 1 + j = g + (j + 1) := by omega
          rw [harith]
          exact this

/-- `getD` through `take`. -/
theorem getD_take (l : List Resp) (n m : Nat) (d : Resp) (h : m < n) :
    (l.take n).getD m d = l.getD m d := by
  rw [List.getD_eq_getElem?_getD, List.getD_eq_getElem?_getD, List.getElem?_take, if_pos h]

/-- `getD` through `drop`. -/
theorem getD_drop (l : List Resp) (n m : Nat) (d : Resp) :
    (l.drop n).getD m d = l.getD (n + m) d := by
  rw [List.getD_eq_getElem?_getD, List.getD_eq_getElem?_getD, List.getElem?_drop]

/-- Characterisation of the whole `riscv_read_memory` batch loop under clean
responses, starting at any `i < count + 3` with exactly the remaining
responses supplied: the loop consumes everything, never retries, ends with
`cache_clean`, takes the exception word from global scan `count + 2`, fills
buffer element `k` from global scan `k + 2`, and leaves positions at or above
`size * count` (and below the window of scan `i`) untouched. -/
theorem rmem_loop_clean (size count : Nat) (hsz : 0 < size) :
    ∀ fuel i buf rv (s : St) (e : Env),
      (∀ r ∈ e.resps, r.status = DBUS_STATUS_SUCCESS ∧ interruptBit r.data = false) →
      e.resps.length = count + 3 - i → i < count + 3 → count + 4 - i ≤ fuel →
      ∃ ok buf' rv',
        rmem_loop size count fuel i buf rv s e =
          some (ok, buf', rv', cache_clean s, { e with resps := [] }) ∧
        rv' = (e.resps.getD (count + 2 - i) ⟨0, 0, 0⟩).data % 2 ^ 32 ∧
        ok = (rv' == 0) ∧
        (∀ k b, b < size → i ≤ k + 2 → k < count →
          buf' (size * k + b) = byteOf ((e.resps.getD (k + 2 - i) ⟨0, 0, 0⟩).data) b) ∧
        (∀ p, size * count ≤ p → buf' p = buf p) ∧
        (∀ p, p < size * (i - 2) → buf' p = buf p) := by
  intro fuel
  induction fuel with
  | zero =>
    intro i buf rv s e hclean hlen hi hfuel
    omega
  | succ fuel ih =>
    intro i buf rv s e hclean hlen hi hfuel
    have hbs1 : 1 ≤ min (count + 3 - i) max_batch_size := by
      unfold max_batch_size
      omega
    have hbsle : min (count + 3 - i) max_batch_size ≤ count + 3 - i :=
      Nat.min_le_left _ _
    have hlen2 : ¬ e.resps.length < min (count + 3 - i) max_batch_size := by omega
    have htlen : (e.resps.take (min (count + 3 - i) max_batch_size)).length =
        min (count + 3 - i) max_batch_size := by
      rw [List.length_take]
      omega
    obtain ⟨buf₁, rv₁, hrun, hrv, hwr, hfr⟩ :=
      rmem_harvest_clean size count (e.resps.take (min (count + 3 - i) max_batch_size))
        i buf rv 0 0 (fun r hr => hclean r (List.mem_of_mem_take hr))
    have hsteps : rmem_step size count i buf rv s e =
        .next (i + min (count + 3 - i) max_batch_size) buf₁ rv₁ s
          { e with resps := e.resps.drop (min (count + 3 - i) max_batch_size) } := by
      simp only [rmem_step, if_neg hlen2, hrun]
      rw [if_neg (by simp : ¬(0 : Nat) ≠ 0), if_neg (by simp : ¬(0 : Nat) ≠ 0),
        if_neg (by simp : ¬((0 : Nat) ≠ 0 ∨ (0 : Nat) ≠ 0))]
    rw [rmem_loop, if_neg (by omega)]
    simp only [hsteps]
    -- window frame of the head batch at a position at or above size * count,
    -- or below the window of scan i
    have hfrup : ∀ p, size * count ≤ p → buf₁ p = buf p := by
      intro p hp
      refine hfr p fun j hj => ?_
      rw [htlen] at hj
      by_cases h1 : i + j ≤ 1
      · exact Or.inl h1
      · by_cases h2 : i + j = count + 2
        · exact Or.inr (Or.inl h2)
        · refine Or.inr (Or.inr (Or.inr ?_))
          have hij : i + j ≤ count + 1 := by omega
          calc size * (i + j - 2) + size = size * (i + j - 1) := by
                have : i + j - 2 + 1 = i + j - 1 := by omega
                rw [← this]
                ring
            _ ≤ size * count := Nat.mul_le_mul_left size (by omega)
            _ ≤ p := hp
    have hfrlow : ∀ p, p < size * (i - 2) → buf₁ p = buf p := by
      intro p hp
      refine hfr p fun j hj => ?_
      refine Or.inr (Or.inr (Or.inl ?_))
      calc p < size * (i - 2) := hp
        _ ≤ size * (i + j - 2) := Nat.mul_le_mul_left size (by omega)
    by_cases hdone : count + 3 ≤ i + min (count + 3 - i) max_batch_size
    · -- last batch: the next loop iteration takes the final branch
      have hbseq : min (count + 3 - i) max_batch_size = count + 3 - i := by omega
      have hdrop : e.resps.drop (min (count + 3 - i) max_batch_size) = [] := by
        refine List.drop_eq_nil_of_le ?_
        omega
      rcases fuel with _ | fuel
      · omega
      · rw [rmem_loop, if_pos (by omega)]
        refine ⟨(rv₁ == 0), buf₁, rv₁, ?_, ?_, rfl, ?_, hfrup, hfrlow⟩
        · rw [hdrop]
        · rw [hrv, if_pos ⟨by omega, by rw [htlen]; omega⟩,
            getD_take _ _ _ _ (by omega)]
        · intro k b hb hik hk
          rw [hwr k b hb hik (by rw [htlen]; omega) (by omega),
            getD_take _ _ _ _ (by omega)]
    · -- recurse into the remaining batches
      have hclean2 : ∀ r ∈ e.resps.drop (min (count + 3 - i) max_batch_size),
          r.status = DBUS_STATUS_SUCCESS ∧ interruptBit r.data = false :=
        fun r hr => hclean r (List.mem_of_mem_drop hr)
      have hlen3 : (e.resps.drop (min (count + 3 - i) max_batch_size)).length =
          count + 3 - (i + min (count + 3 - i) max_batch_size) := by
        rw [List.length_drop]
        omega
      obtain ⟨ok, buf', rv', hloop, hrv', hok, hwr', hup', hlow'⟩ :=
        ih (i + min (count + 3 - i) max_batch_size) buf₁ rv₁ s
          { e with resps := e.resps.drop (min (count + 3 - i) max_batch_size) }
          hclean2 hlen3 (by omega) (by omega)
      refine ⟨ok, buf', rv', hloop, ?_, hok, ?_, ?_, ?_⟩
      · rw [hrv']
        show ((e.resps.drop (min (count + 3 - i) max_batch_size)).getD
            (count + 2 - (i + min (count + 3 - i) max_batch_size)) ⟨0, 0, 0⟩).data % 2 ^ 32 = _
        rw [getD_drop]
        have hidx : min (count + 3 - i) max_batch_size +
            (count + 2 - (i + min (count + 3 - i) max_batch_size)) = count + 2 - i := by
          omega
        rw [hidx]
      · intro k b hb hik hk
        by_cases hhead : k + 2 < i + min (count + 3 - i) max_batch_size
        · have hstay : buf' (size * k + b) = buf₁ (size * k + b) := by
            refine hlow' (size * k + b) ?_
            calc size * k + b < size * (k + 1) := by
                  have : size * (k + 1) = size * k + size := by ring
                  omega
              _ ≤ size * (i + min (count + 3 - i) max_batch_size - 2) :=
                  Nat.mul_le_mul_left size (by omega)
          rw [hstay, hwr k b hb hik (by rw [htlen]; omega) (by omega),
            getD_take _ _ _ _ (by omega)]
        · rw [hwr' k b hb (by omega) hk]
          show byteOf ((e.resps.drop (min (count + 3 - i) max_batch_size)).getD
              (k + 2 - (i + min (count + 3 - i) max_batch_size)) ⟨0, 0, 0⟩).data b = _
          rw [getD_drop]
          have hidx : min (count + 3 - i) max_batch_size +
              (k + 2 - (i + min (count + 3 - i) max_batch_size)) = k + 2 - i := by
            omega
          rw [hidx]
      · intro p hp
        rw [hup' p hp]
        exact hfrup p hp
      · intro p hp
        have hp2 : p < size * (i + min (count + 3 - i) max_batch_size - 2) := by
          calc p < size * (i - 2) := hp
            _ ≤ size * (i + min (count + 3 - i) max_batch_size - 2) :=
                Nat.mul_le_mul_left size (by omega)
        rw [hlow' p hp2]
        exact hfrlow p hp

/-- Claim C8: in the `riscv_read_memory` batch loop run from the start under
clean responses, the harvested data is offset by the two-deep pipeline: for
every element index `k < count`, the `size` buffer bytes of element `k` are
the bytes of the data field of harvested scan `k + 2` of the concatenated
batch sequence; the scan at position `count + 2` becomes the exception word
(`result_value`, deciding success), not buffer data — buffer positions at or
above `size * count` keep their original contents. -/
theorem c8_read_memory_offset (size count : Nat) (buf : Nat → Nat) (rv : Nat)
    (s : St) (e : Env)
    (hsz : 0 < size) (hcount : 1 ≤ count)
    (hclean : ∀ r ∈ e.resps, r.status = DBUS_STATUS_SUCCESS ∧ interruptBit r.data = false)
    (hlen : e.resps.length = count + 3) :
    ∃ ok buf' rv',
      rmem_loop size count (count + 4) 0 buf rv s e =
        some (ok, buf', rv', cache_clean s, { e with resps := [] }) ∧
      rv' = (e.resps.getD (count + 2) ⟨0, 0, 0⟩).data % 2 ^ 32 ∧
      ok = (rv' == 0) ∧
      (∀ k b, b < size → k < count →
        buf' (size * k + b) = byteOf ((e.resps.getD (k + 2) ⟨0, 0, 0⟩).data) b) ∧
      (∀ p, size * count ≤ p → buf' p = buf p) := by
  obtain ⟨ok, buf', rv', h1, h2, h3, h4, h5, h6⟩ :=
    rmem_loop_clean size count hsz (count + 4) 0 buf rv s e hclean (by omega)
      (by omega) (by omega)
  exact ⟨ok, buf', rv', h1, by simpa using h2, h3,
    fun k b hb hk => by simpa using h4 k b hb (by omega) hk, h5⟩

/-- Five clean responses for a two-element one-byte read: scans 2 and 3 carry
the memory data 12 and 13, scan 4 carries the zero exception word. -/
def envC8 : Env :=
  { resps := [⟨0, 10, 0⟩, ⟨0, 11, 0⟩, ⟨0, 12, 4⟩, ⟨0, 13, 4⟩, ⟨0, 0, 15⟩], waits := [] }

/-- Claim C8, witness: the concrete two-element one-byte read harvests
buffer bytes 12 and 13 from scans 2 and 3 and succeeds with a zero exception
word from scan 4. -/
theorem c8_witness :
    ∃ ok buf' rv',
      rmem_loop 1 2 6 0 (fun _ => 0) 0x777 stBase envC8 =
        some (ok, buf', rv', cache_clean stBase, { envC8 with resps := [] }) ∧
      rv' = 0 ∧ ok = true ∧ buf' 0 = 12 ∧ buf' 1 = 13 := by
  obtain ⟨ok, buf', rv', h1, h2, h3, h4, h5⟩ :=
    c8_read_memory_offset 1 2 (fun _ => 0) 0x777 stBase envC8 (by decide) (by decide)
      (by decide) (by decide)
  have hrv0 : rv' = 0 := by
    rw [h2]
    decide
  refine ⟨ok, buf', rv', h1, hrv0, ?_, ?_, ?_⟩
  · rw [h3, hrv0]
    decide
  · exact (h4 0 0 (by decide) (by decide)).trans (by decide)
  · exact (h4 1 0 (by decide) (by decide)).trans (by decide)

end Riscv011
